import Mathlib

/-!
Shallow embedding of the voxelio.rsmcdoc MCDOC validator (Rust) in Lean 4,
with theorems settling the claims about its specification.

Conventions of the embedding:
* Rust `String` / `&str` become Lean `String`; byte offsets are modelled as
  character offsets (they coincide on ASCII input, and every input exercised
  here is ASCII).
* Rust `u32` / `usize` become `Nat`; `i64` becomes `Int`.
* `serde_json::Value` becomes the `Json` inductive below; JSON numbers are
  split into integer (`is_i64`) and float (`is_f64`) constructors, with the
  float payload modelled as an exact rational (`f64` rounding is irrelevant
  to the claims settled here, which only use small integers).
* `FxHashMap` / `FxHashSet` become association lists / lists with
  insert-overwrite / insert-if-absent semantics; map iteration order is
  modelled as list order (the Rust hash-map iteration order is unspecified,
  and no claim below depends on it).
* Functions of the source that can fail return `Except`; loops of the source
  whose termination Lean cannot see are driven by an explicit fuel and return
  `Option` (`none` models divergence / running out of fuel; fuel bounds are
  chosen large enough that `none` is unreachable on the inputs used).
* Single quotes inside the error-message strings of the source are produced
  through the constant `sQuote` below, so messages are built by concatenation
  where the Rust uses `format!`.
-/

/-- The single-quote character as a string (used to build error messages). -/
def sQuote : String := String.singleton (Char.ofNat 39)

/-- Split a character list at every occurrence of `sep`, mirroring the Rust
`str::split` (always returns at least one part; `n` separators give `n + 1`
parts). -/
def splitSep (sep : Char) : List Char → List (List Char)
  | [] => [[]]
  | c :: rest =>
    match splitSep sep rest with
    | part :: parts =>
      if c = sep then [] :: part :: parts
      else (c :: part) :: parts
    | [] => [[]]

/-- String version of `splitSep`, mirroring `str::split` on one character. -/
def strSplit (s : String) (sep : Char) : List String :=
  (splitSep sep s.data).map String.mk

/-- Join strings with a separator, mirroring `Vec::join`. -/
def joinSep (sep : String) : List String → String
  | [] => ""
  | [x] => x
  | x :: rest => x ++ sep ++ joinSep sep rest

/-- Does `hay` start with `needle`? (Rust `str::starts_with`.) -/
def listStartsWith : List Char → List Char → Bool
  | _, [] => true
  | [], _ :: _ => false
  | x :: xs, y :: ys => x = y && listStartsWith xs ys

/-- Does `hay` contain `needle` as a contiguous sublist?
(Rust `str::contains` with a string pattern.) -/
def listContainsSub (hay needle : List Char) : Bool :=
  match hay with
  | [] => needle.isEmpty
  | _ :: t => listStartsWith hay needle || listContainsSub t needle

/-- Rust `str::contains` for strings. -/
def strContains (hay needle : String) : Bool :=
  listContainsSub hay.data needle.data

/-- Rust `str::contains` with a `char` pattern. -/
def strContainsChar (hay : String) (c : Char) : Bool :=
  hay.data.contains c

/-- Rust `str::starts_with` for strings. -/
def strStartsWith (hay needle : String) : Bool :=
  listStartsWith hay.data needle.data

/-- Parse a non-empty all-digit string as a `Nat`, mirroring the digit case
of Rust `u32::from_str` (the only case exercised by the source inputs). -/
def parseNatDigits (cs : List Char) : Option Nat :=
  if cs.isEmpty then none
  else if cs.all Char.isDigit then
    some (cs.foldl (fun acc c => 10 * acc + (c.toNat - 48)) 0)
  else none

/-- Look up a key in an association list (Rust `HashMap::get`). -/
def alistGet? {α : Type} (l : List (String × α)) (k : String) : Option α :=
  match l with
  | [] => none
  | (k', v) :: rest => if k' = k then some v else alistGet? rest k

/-- Does the association list contain the key? (Rust `HashMap::contains_key`.) -/
def alistHas {α : Type} (l : List (String × α)) (k : String) : Bool :=
  (alistGet? l k).isSome

/-- Apply `f` to the value stored at `k` (first occurrence).  Models a
`HashMap::get_mut(k).unwrap()` update; if the key is absent (which would
panic in the source and never happens under the invariants proved below)
the list is returned unchanged. -/
def alistUpdate {α : Type} (l : List (String × α)) (k : String) (f : α → α) :
    List (String × α) :=
  match l with
  | [] => []
  | (k', v) :: rest =>
    if k' = k then (k', f v) :: rest else (k', v) :: alistUpdate rest k f

/-- Insert a key-value pair with overwrite semantics (Rust `HashMap::insert`:
replaces the value if the key is present, otherwise adds the entry). -/
def alistInsert {α : Type} (l : List (String × α)) (k : String) (v : α) :
    List (String × α) :=
  if alistHas l k then alistUpdate l k (fun _ => v) else l ++ [(k, v)]

-- ================================
-- serde_json value model
-- ================================

/-- Model of `serde_json::Value`.  Numbers are split by the `is_i64` /
`is_f64` distinction the validator relies on. -/
inductive Json where
  | null
  | bool (b : Bool)
  | int (n : Int)
  | float (q : ℚ)
  | str (s : String)
  | arr (elems : List Json)
  | obj (fields : List (String × Json))

/-- `Value::is_string`. -/
def Json.is_string : Json → Bool
  | .str _ => true
  | _ => false

/-- `Value::is_i64`. -/
def Json.is_i64 : Json → Bool
  | .int _ => true
  | _ => false

/-- `Value::is_f64`. -/
def Json.is_f64 : Json → Bool
  | .float _ => true
  | _ => false

/-- `Value::is_boolean`. -/
def Json.is_boolean : Json → Bool
  | .bool _ => true
  | _ => false

/-- `Value::is_null`. -/
def Json.is_null : Json → Bool
  | .null => true
  | _ => false

/-- `Value::is_array`. -/
def Json.is_array : Json → Bool
  | .arr _ => true
  | _ => false

/-- `Value::is_object`. -/
def Json.is_object : Json → Bool
  | .obj _ => true
  | _ => false

/-- `Value::get` with a string key (object member lookup). -/
def Json.objGet : Json → String → Option Json
  | .obj fields, k => alistGet? fields k
  | _, _ => none

/-- `Value::as_str`. -/
def Json.as_str : Json → Option String
  | .str s => some s
  | _ => none

/-- `Value::as_array`. -/
def Json.as_array : Json → Option (List Json)
  | .arr elems => some elems
  | _ => none

/-- `Value::as_object`. -/
def Json.as_object : Json → Option (List (String × Json))
  | .obj fields => some fields
  | _ => none

/-- `json_type_name` from `validator.rs`: human-readable name of a JSON
value kind. -/
def json_type_name : Json → String
  | .null => "null"
  | .bool _ => "boolean"
  | .int _ => "number"
  | .float _ => "number"
  | .str _ => "string"
  | .arr _ => "array"
  | .obj _ => "object"

-- ================================
-- error.rs
-- ================================

/-- `ErrorType` from `error.rs`. -/
inductive ErrorType where
  | LexerError
  | ParseError
  | ResolverError
  | ValidationError
  | JsonError
  | IoError
deriving Repr, DecidableEq

/-- `McDocParserError` from `error.rs`. -/
inductive McDocParserError where
  | UnexpectedCharacter (char : Char) (line : Nat) (column : Nat)
  | UnterminatedString (line : Nat) (column : Nat)
  | InvalidNumber (value : String) (line : Nat) (column : Nat)
  | UnexpectedToken (expected : String) (found : String) (line : Nat) (column : Nat)
  | UnclosedParen (line : Nat) (column : Nat)
  | UnclosedBrace (line : Nat) (column : Nat)
  | InvalidAnnot (annot : String) (line : Nat) (column : Nat)
  | ImportNotFound (path : String)
  | CircularDependency (cycle : List String)
  | ModuleNotFound (module : String) (from_ : String)
  | ValidationError (message : String) (line : Nat) (column : Nat)
  | InvalidRegistry (path : String) (value : String) (registry : String)
  | VersionConstraint (field : String) (required_version : String) (current_version : String)
  | TypeMismatch (expected : String) (found : String) (path : String)
  | ConstraintViolation (constraint : String) (value : String) (path : String)
  | MissingRequiredField (field : String) (path : String)
  | InvalidResourceId (id : String)
  | JsonParseError (msg : String)
  | IoError (msg : String)
deriving Repr, DecidableEq

/-- The `Display` implementation of `McDocParserError` (`error.rs`), rendered
to a string. -/
def McDocParserError.toDisplayString : McDocParserError → String
  | .UnexpectedCharacter c line column =>
      "Unexpected character " ++ sQuote ++ String.singleton c ++ sQuote ++ " at line " ++
      toString line ++ ", column " ++ toString column
  | .UnterminatedString line column =>
      "Unterminated string at line " ++ toString line ++ ", column " ++ toString column
  | .InvalidNumber value line column =>
      "Invalid number " ++ sQuote ++ value ++ sQuote ++ " at line " ++ toString line ++
      ", column " ++ toString column
  | .UnexpectedToken expected found line column =>
      "Expected " ++ sQuote ++ expected ++ sQuote ++ ", found " ++ sQuote ++ found ++ sQuote ++
      " at line " ++ toString line ++ ", column " ++ toString column
  | .UnclosedParen line column =>
      "Unclosed parenthesis at line " ++ toString line ++ ", column " ++ toString column
  | .UnclosedBrace line column =>
      "Unclosed brace at line " ++ toString line ++ ", column " ++ toString column
  | .InvalidAnnot a line column =>
      "Invalid annotation " ++ sQuote ++ a ++ sQuote ++ " at line " ++ toString line ++
      ", column " ++ toString column
  | .ValidationError message line column =>
      "Validation error at line " ++ toString line ++ ", column " ++
      toString column ++ ": " ++ message
  | .ImportNotFound path =>
      "Import not found: " ++ sQuote ++ path ++ sQuote
  | .CircularDependency cycle =>
      "Circular dependency detected: " ++ joinSep " -> " cycle
  | .ModuleNotFound module from_ =>
      "Module " ++ sQuote ++ module ++ sQuote ++ " not found (imported from " ++ sQuote ++
      from_ ++ sQuote ++ ")"
  | .InvalidRegistry path value registry =>
      "Invalid registry reference at " ++ sQuote ++ path ++ sQuote ++ ": " ++ sQuote ++ value ++
      sQuote ++ " not found in registry " ++ sQuote ++ registry ++ sQuote
  | .VersionConstraint field required_version current_version =>
      "Version constraint violation for field " ++ sQuote ++ field ++ sQuote ++
      ": requires " ++ sQuote ++ required_version ++ sQuote ++ ", current version is " ++
      sQuote ++ current_version ++ sQuote
  | .TypeMismatch expected found path =>
      "Type mismatch at " ++ sQuote ++ path ++ sQuote ++ ": expected " ++ sQuote ++ expected ++
      sQuote ++ ", found " ++ sQuote ++ found ++ sQuote
  | .ConstraintViolation constraint value path =>
      "Constraint violation at " ++ sQuote ++ path ++ sQuote ++ ": value " ++ sQuote ++ value ++
      sQuote ++ " violates constraint " ++ sQuote ++ constraint ++ sQuote
  | .MissingRequiredField field path =>
      "Missing required field " ++ sQuote ++ field ++ sQuote ++ " at " ++ sQuote ++ path ++ sQuote
  | .InvalidResourceId id =>
      "Invalid resource identifier: " ++ sQuote ++ id ++ sQuote
  | .JsonParseError msg => "JSON parse error: " ++ msg
  | .IoError msg => "IO error: " ++ msg

/-- `McDocParserError::error_type` from `error.rs`. -/
def McDocParserError.error_type : McDocParserError → ErrorType
  | .UnexpectedCharacter .. => .LexerError
  | .UnterminatedString .. => .LexerError
  | .InvalidNumber .. => .LexerError
  | .UnexpectedToken .. => .ParseError
  | .UnclosedParen .. => .ParseError
  | .UnclosedBrace .. => .ParseError
  | .InvalidAnnot .. => .ParseError
  | .ImportNotFound .. => .ResolverError
  | .CircularDependency .. => .ResolverError
  | .ModuleNotFound .. => .ResolverError
  | .ValidationError .. => .ValidationError
  | .InvalidRegistry .. => .ValidationError
  | .VersionConstraint .. => .ValidationError
  | .TypeMismatch .. => .ValidationError
  | .ConstraintViolation .. => .ValidationError
  | .MissingRequiredField .. => .ValidationError
  | .JsonParseError _ => .JsonError
  | .InvalidResourceId _ => .IoError
  | .IoError _ => .IoError

/-- `McDocParserError::position` from `error.rs`. -/
def McDocParserError.position : McDocParserError → Option (Nat × Nat)
  | .UnexpectedCharacter _ line column => some (line, column)
  | .UnterminatedString line column => some (line, column)
  | .InvalidNumber _ line column => some (line, column)
  | .UnexpectedToken _ _ line column => some (line, column)
  | .UnclosedParen line column => some (line, column)
  | .UnclosedBrace line column => some (line, column)
  | .InvalidAnnot _ line column => some (line, column)
  | .ValidationError _ line column => some (line, column)
  | _ => none

-- ================================
-- types.rs
-- ================================

/-- `McDocDependency` from `types.rs`. -/
structure McDocDependency where
  resource_location : String
  registry_type : String
  source_path : String
  source_file : Option String
  is_tag : Bool
deriving Repr, DecidableEq

/-- `McDocError` from `types.rs`. -/
structure McDocError where
  file : String
  path : String
  message : String
  error_type : ErrorType
  line : Option Nat
  column : Option Nat
deriving Repr, DecidableEq

/-- `From<McDocParserError> for McDocError` (`types.rs`). -/
def McDocError.fromParserError (e : McDocParserError) : McDocError :=
  { file := ""
    path := ""
    message := e.toDisplayString
    error_type := e.error_type
    line := (e.position).map Prod.fst
    column := (e.position).map Prod.snd }

/-- `ValidationResult` from `types.rs`. -/
structure ValidationResult where
  is_valid : Bool
  errors : List McDocError
  dependencies : List McDocDependency
deriving Repr, DecidableEq

/-- `ValidationResult::success`. -/
def ValidationResult.success (dependencies : List McDocDependency) : ValidationResult :=
  { is_valid := true, errors := [], dependencies := dependencies }

/-- `ValidationResult::failure`. -/
def ValidationResult.failure (errors : List McDocError) : ValidationResult :=
  { is_valid := false, errors := errors, dependencies := [] }

/-- `ValidationResult::add_error`: push the error and set `is_valid := false`. -/
def ValidationResult.add_error (r : ValidationResult) (e : McDocError) : ValidationResult :=
  { r with errors := r.errors ++ [e], is_valid := false }

/-- `ValidationResult::add_dependency`: push the dependency. -/
def ValidationResult.add_dependency (r : ValidationResult) (d : McDocDependency) :
    ValidationResult :=
  { r with dependencies := r.dependencies ++ [d] }

/-- `MinecraftVersion` from `types.rs`. -/
structure MinecraftVersion where
  major : Nat
  minor : Nat
  patch : Nat
deriving Repr, DecidableEq

/-- `MinecraftVersion::parse` from `types.rs`. -/
def MinecraftVersion.parse (version : String) : Option MinecraftVersion :=
  match strSplit version '.' with
  | [major, minor] => do
      let ma ← parseNatDigits major.data
      let mi ← parseNatDigits minor.data
      pure { major := ma, minor := mi, patch := 0 }
  | [major, minor, patch] => do
      let ma ← parseNatDigits major.data
      let mi ← parseNatDigits minor.data
      let pa ← parseNatDigits patch.data
      pure { major := ma, minor := mi, patch := pa }
  | _ => none

/-- `MinecraftVersion::is_at_least` from `types.rs`. -/
def MinecraftVersion.is_at_least (v other : MinecraftVersion) : Bool :=
  if v.major > other.major then true
  else if v.major < other.major then false
  else if v.minor > other.minor then true
  else if v.minor < other.minor then false
  else v.patch ≥ other.patch

-- ================================
-- lib.rs : ResourceId
-- ================================

/-- `ResourceId` from `lib.rs`. -/
structure ResourceId where
  namespace_ : String
  path : String
deriving Repr, DecidableEq

/-- `ResourceId::parse_with_default_namespace` from `lib.rs`: split the input
on every colon; two parts give namespace and path, one part gives the whole
input as path (with the default namespace if supplied), anything else is an
`InvalidResourceId` error. -/
def ResourceId.parse_with_default_namespace (input : String)
    (default_namespace : Option String) : Except McDocParserError ResourceId :=
  match strSplit input ':' with
  | [ns, path] => .ok { namespace_ := ns, path := path }
  | [path] =>
    match default_namespace with
    | some ns => .ok { namespace_ := ns, path := path }
    | none => .ok { namespace_ := "", path := path }
  | _ => .error (.InvalidResourceId input)

/-- `ResourceId::parse` from `lib.rs`. -/
def ResourceId.parse (input : String) : Except McDocParserError ResourceId :=
  ResourceId.parse_with_default_namespace input none

/-- `ResourceId::to_string` from `lib.rs`. -/
def ResourceId.toStr (r : ResourceId) : String :=
  r.namespace_ ++ ":" ++ r.path

-- ================================
-- lexer.rs
-- ================================

/-- `Token` from `lexer.rs`.  `TypeKw` stands for the source constructor
`Type` (a Lean keyword), `Str` for `String`, `Annot` for the annotation
token. -/
inductive Tok where
  | Identifier (s : String)
  | Str (s : String)
  | Number (value : ℚ)
  | Boolean (b : Bool)
  | Use
  | Struct
  | Enum
  | TypeKw
  | Dispatch
  | To
  | Super
  | LeftParen
  | RightParen
  | LeftBrace
  | RightBrace
  | LeftBracket
  | RightBracket
  | Colon
  | DoubleColon
  | Semicolon
  | Comma
  | Question
  | Pipe
  | At
  | Hash
  | Dot
  | DotDotDot
  | DotDot
  | Percent
  | Equals
  | LeftAngle
  | RightAngle
  | Annot (raw : String)
  | LineComment (s : String)
  | BlockComment (s : String)
  | Eof
  | Newline
deriving Repr, DecidableEq

/-- `Position` from `lexer.rs` (1-based line and column, byte offset;
offsets are modelled as character offsets, identical on ASCII input). -/
structure Position where
  line : Nat
  column : Nat
  offset : Nat
deriving Repr, DecidableEq

/-- `TokenWithPos` from `lexer.rs`. -/
structure TokenWithPos where
  token : Tok
  position : Position
deriving Repr, DecidableEq

/-- `Lexer` state from `lexer.rs`.  The source buffers `current_char` and
`peek_char`; here they are recomputed from the offset, which is equivalent. -/
structure Lexer where
  input : List Char
  offset : Nat
  line : Nat
  column : Nat

/-- `Lexer::new`. -/
def Lexer.new (input : List Char) : Lexer :=
  { input := input, offset := 0, line := 1, column := 1 }

/-- The buffered `current_char` of the source lexer. -/
def Lexer.current_char (l : Lexer) : Option Char :=
  l.input.get? l.offset

/-- `Lexer::peek` (the buffered `peek_char`). -/
def Lexer.peek (l : Lexer) : Option Char :=
  l.input.get? (l.offset + 1)

/-- The current `Position` of the lexer. -/
def Lexer.pos (l : Lexer) : Position :=
  { line := l.line, column := l.column, offset := l.offset }

/-- `Lexer::advance`: move one character forward, updating line and column. -/
def Lexer.advance (l : Lexer) : Lexer :=
  match l.current_char with
  | none => l
  | some c =>
    if c = '\n' then
      { l with offset := l.offset + 1, line := l.line + 1, column := 1 }
    else
      { l with offset := l.offset + 1, column := l.column + 1 }

/-- Advance while the predicate holds (the `while let Some(ch) = … advance`
loops of the source).  Fueled; `none` is unreachable when the fuel exceeds
the remaining input length. -/
def Lexer.advanceWhile (p : Char → Bool) : Nat → Lexer → Option Lexer
  | 0, _ => none
  | fuel + 1, l =>
    match l.current_char with
    | some c => if p c then Lexer.advanceWhile p fuel l.advance else some l
    | none => some l

/-- Inner loop of the line-comment case of
`Lexer::skip_whitespace_and_comments`: skip to (not past) the next newline. -/
def Lexer.skipLineComment : Nat → Lexer → Option Lexer
  | 0, _ => none
  | fuel + 1, l =>
    if l.current_char.isSome && l.current_char ≠ some '\n' then
      Lexer.skipLineComment fuel l.advance
    else some l

/-- Inner loop of the block-comment case of
`Lexer::skip_whitespace_and_comments` (nesting depth counting). -/
def Lexer.skipBlockComment : Nat → Nat → Lexer → Option (Nat × Lexer)
  | 0, _, _ => none
  | fuel + 1, depth, l =>
    if depth > 0 && l.current_char.isSome then
      if l.current_char = some '/' && l.peek = some '*' then
        Lexer.skipBlockComment fuel (depth + 1) l.advance.advance
      else if l.current_char = some '*' && l.peek = some '/' then
        Lexer.skipBlockComment fuel (depth - 1) l.advance.advance
      else
        Lexer.skipBlockComment fuel depth l.advance
    else some (depth, l)

/-- `Lexer::skip_whitespace_and_comments` from `lexer.rs`. -/
def Lexer.skip_whitespace_and_comments :
    Nat → Lexer → Option (Except McDocParserError Lexer)
  | 0, _ => none
  | fuel + 1, l =>
    match l.current_char with
    | none => some (.ok l)
    | some c =>
      if c = ' ' || c = '\t' || c = '\r' then
        Lexer.skip_whitespace_and_comments fuel l.advance
      else if c = '\n' then
        some (.ok l)
      else if c = '/' && l.peek = some '/' then
        match Lexer.skipLineComment (l.input.length + 1) l with
        | none => none
        | some l' => Lexer.skip_whitespace_and_comments fuel l'
      else if c = '/' && l.peek = some '*' then
        match Lexer.skipBlockComment (l.input.length + 1) 1 l.advance.advance with
        | none => none
        | some (depth, l') =>
          if depth > 0 then
            some (.error (.UnterminatedString l'.line l'.column))
          else
            Lexer.skip_whitespace_and_comments fuel l'
      else
        some (.ok l)

/-- `Lexer::read_identifier` from `lexer.rs` (Rust `is_alphanumeric` is
Unicode-aware; modelled as ASCII, which coincides on the inputs used). -/
def Lexer.read_identifier (l : Lexer) : Option (String × Lexer) :=
  let start := l.offset
  match Lexer.advanceWhile (fun c => c.isAlphanum || c = '_') (l.input.length + 1) l with
  | none => none
  | some l' => some (String.mk ((l.input.drop start).take (l'.offset - start)), l')

/-- Digit string to natural number. -/
def digitsToNat (cs : List Char) : Nat :=
  cs.foldl (fun acc c => 10 * acc + (c.toNat - 48)) 0

/-- Value of a `digits(.digits)?` decimal string, as an exact rational.
This is the sub-language of `f64::from_str` that `Lexer::read_number` can
produce; any other shape is `none` (the source would report
`InvalidNumber`). -/
def parseDecimal (cs : List Char) : Option ℚ :=
  let intp := cs.takeWhile Char.isDigit
  let rest := cs.dropWhile Char.isDigit
  if intp.isEmpty then none
  else
    match rest with
    | [] => some (digitsToNat intp : ℚ)
    | c :: frac =>
      if c = '.' && !frac.isEmpty && frac.all Char.isDigit then
        some ((digitsToNat intp : ℚ) + (digitsToNat frac : ℚ) / (10 ^ frac.length : ℚ))
      else none

/-- `Lexer::read_number` from `lexer.rs`: integer part, then a fractional
part only when a digit follows the dot.  Note the source reads no sign
character. -/
def Lexer.read_number (l : Lexer) : Option (Except McDocParserError (ℚ × Lexer)) :=
  let start := l.offset
  let start_pos := l.pos
  match Lexer.advanceWhile Char.isDigit (l.input.length + 1) l with
  | none => none
  | some l1 =>
    let afterInt :=
      if l1.current_char = some '.' &&
          (l1.peek.map Char.isDigit).getD false then
        Lexer.advanceWhile Char.isDigit (l1.input.length + 1) l1.advance
      else some l1
    match afterInt with
    | none => none
    | some l2 =>
      let number_str := (l.input.drop start).take (l2.offset - start)
      match parseDecimal number_str with
      | some q => some (.ok (q, l2))
      | none =>
        some (.error (.InvalidNumber (String.mk number_str) start_pos.line start_pos.column))

/-- Loop body of `Lexer::read_string` from `lexer.rs`. -/
def Lexer.readStringLoop (start_pos : Position) (content_start : Nat) :
    Nat → Lexer → Option (Except McDocParserError (String × Lexer))
  | 0, _ => none
  | fuel + 1, l =>
    match l.current_char with
    | some c =>
      if c = '"' then
        let content := (l.input.drop content_start).take (l.offset - content_start)
        some (.ok (String.mk content, l.advance))
      else if c = '\\' then
        let l1 := l.advance
        let l2 := if l1.current_char.isSome then l1.advance else l1
        Lexer.readStringLoop start_pos content_start fuel l2
      else if c = '\n' then
        some (.error (.UnterminatedString start_pos.line start_pos.column))
      else
        Lexer.readStringLoop start_pos content_start fuel l.advance
    | none => some (.error (.UnterminatedString start_pos.line start_pos.column))

/-- `Lexer::read_string` from `lexer.rs`. -/
def Lexer.read_string (l : Lexer) : Option (Except McDocParserError (String × Lexer)) :=
  let start_pos := l.pos
  let l1 := l.advance
  Lexer.readStringLoop start_pos l1.offset (l1.input.length + 1) l1

/-- Bracket-counting loop of `Lexer::read_annotation` from `lexer.rs`. -/
def Lexer.readAnnotLoop (start_offset : Nat) (start_pos : Position) :
    Nat → Nat → Lexer → Option (Except McDocParserError (String × Lexer))
  | 0, _, _ => none
  | fuel + 1, depth, l =>
    match l.current_char with
    | some c =>
      if c = '[' then
        Lexer.readAnnotLoop start_offset start_pos fuel (depth + 1) l.advance
      else if c = ']' then
        let l' := l.advance
        if depth - 1 = 0 then
          some (.ok (String.mk ((l.input.drop start_offset).take (l'.offset - start_offset)), l'))
        else
          Lexer.readAnnotLoop start_offset start_pos fuel (depth - 1) l'
      else
        Lexer.readAnnotLoop start_offset start_pos fuel depth l.advance
    | none =>
      some (.error (.InvalidAnnot
        (String.mk ((l.input.drop start_offset).take (l.offset - start_offset)))
        start_pos.line start_pos.column))

/-- `Lexer::read_annotation` from `lexer.rs`: reads a whole `#[…]` with
nesting. -/
def Lexer.read_annotation (l : Lexer) :
    Option (Except McDocParserError (String × Lexer)) :=
  let start_offset := l.offset
  let start_pos := l.pos
  let l1 := l.advance
  if l1.current_char ≠ some '[' then
    some (.error (.InvalidAnnot "#" start_pos.line start_pos.column))
  else
    Lexer.readAnnotLoop start_offset start_pos (l1.input.length + 1) 0 l1

/-- `Lexer::identifier_to_token` from `lexer.rs`. -/
def identifier_to_token (ident : String) : Tok :=
  if ident = "use" then .Use
  else if ident = "struct" then .Struct
  else if ident = "enum" then .Enum
  else if ident = "type" then .TypeKw
  else if ident = "dispatch" then .Dispatch
  else if ident = "to" then .To
  else if ident = "super" then .Super
  else if ident = "true" then .Boolean true
  else if ident = "false" then .Boolean false
  else .Identifier ident

/-- `Lexer::next_token` from `lexer.rs`.  The source match arms are mirrored
in order; note there is no arm for a leading minus sign. -/
def Lexer.next_token (l : Lexer) :
    Option (Except McDocParserError (TokenWithPos × Lexer)) :=
  match Lexer.skip_whitespace_and_comments (l.input.length + 1) l with
  | none => none
  | some (.error e) => some (.error e)
  | some (.ok l) =>
    let pos := l.pos
    match l.current_char with
    | none => some (.ok ({ token := .Eof, position := pos }, l))
    | some c =>
      if c = '\n' then some (.ok ({ token := .Newline, position := pos }, l.advance))
      else if c = '(' then some (.ok ({ token := .LeftParen, position := pos }, l.advance))
      else if c = ')' then some (.ok ({ token := .RightParen, position := pos }, l.advance))
      else if c = '{' then some (.ok ({ token := .LeftBrace, position := pos }, l.advance))
      else if c = '}' then some (.ok ({ token := .RightBrace, position := pos }, l.advance))
      else if c = '[' then some (.ok ({ token := .LeftBracket, position := pos }, l.advance))
      else if c = ']' then some (.ok ({ token := .RightBracket, position := pos }, l.advance))
      else if c = ':' then
        if l.peek = some ':' then
          some (.ok ({ token := .DoubleColon, position := pos }, l.advance.advance))
        else
          some (.ok ({ token := .Colon, position := pos }, l.advance))
      else if c = ';' then some (.ok ({ token := .Semicolon, position := pos }, l.advance))
      else if c = ',' then some (.ok ({ token := .Comma, position := pos }, l.advance))
      else if c = '?' then some (.ok ({ token := .Question, position := pos }, l.advance))
      else if c = '|' then some (.ok ({ token := .Pipe, position := pos }, l.advance))
      else if c = '@' then some (.ok ({ token := .At, position := pos }, l.advance))
      else if c = '%' then some (.ok ({ token := .Percent, position := pos }, l.advance))
      else if c = '=' then some (.ok ({ token := .Equals, position := pos }, l.advance))
      else if c = '#' then
        match l.read_annotation with
        | none => none
        | some (.error e) => some (.error e)
        | some (.ok (a, l')) => some (.ok ({ token := .Annot a, position := pos }, l'))
      else if c = '.' then
        if l.peek = some '.' then
          let l2 := l.advance.advance
          if l2.current_char = some '.' then
            some (.ok ({ token := .DotDotDot, position := pos }, l2.advance))
          else
            some (.ok ({ token := .DotDot, position := pos }, l2))
        else
          some (.ok ({ token := .Dot, position := pos }, l.advance))
      else if c = '"' then
        match l.read_string with
        | none => none
        | some (.error e) => some (.error e)
        | some (.ok (s, l')) => some (.ok ({ token := .Str s, position := pos }, l'))
      else if c.isDigit then
        match l.read_number with
        | none => none
        | some (.error e) => some (.error e)
        | some (.ok (q, l')) => some (.ok ({ token := .Number q, position := pos }, l'))
      else if c = '<' then some (.ok ({ token := .LeftAngle, position := pos }, l.advance))
      else if c = '>' then some (.ok ({ token := .RightAngle, position := pos }, l.advance))
      else if c.isAlpha || c = '_' then
        match l.read_identifier with
        | none => none
        | some (ident, l') =>
          some (.ok ({ token := identifier_to_token ident, position := pos }, l'))
      else
        some (.error (.UnexpectedCharacter c pos.line pos.column))

/-- Loop of `Lexer::tokenize`: collect tokens until `Eof`. -/
def Lexer.tokenizeLoop :
    Nat → Lexer → List TokenWithPos → Option (Except McDocParserError (List TokenWithPos))
  | 0, _, _ => none
  | fuel + 1, l, acc =>
    match l.next_token with
    | none => none
    | some (.error e) => some (.error e)
    | some (.ok (t, l')) =>
      match t.token with
      | .Eof => some (.ok (acc ++ [t]))
      | _ => Lexer.tokenizeLoop fuel l' (acc ++ [t])

/-- `Lexer::tokenize` from `lexer.rs`, on a whole input string.  `none`
models a run out of fuel and never occurs: every non-`Eof` token consumes at
least one character. -/
def tokenize (input : String) : Option (Except McDocParserError (List TokenWithPos)) :=
  Lexer.tokenizeLoop (input.length + 2) (Lexer.new input.data) []

-- ================================
-- parser.rs : AST
-- ================================

/-- `ImportPath` from `parser.rs`. -/
inductive ImportPath where
  | Absolute (segments : List String)
  | Relative (segments : List String)
deriving Repr, DecidableEq

/-- Rendering of the derived `Debug` output of `ImportPath` (used by the
`format!("… {:?}", import_path)` message of the validator). -/
def ImportPath.debugStr : ImportPath → String
  | .Absolute segments =>
      "Absolute([" ++ joinSep ", " (segments.map (fun s => "\"" ++ s ++ "\"")) ++ "])"
  | .Relative segments =>
      "Relative([" ++ joinSep ", " (segments.map (fun s => "\"" ++ s ++ "\"")) ++ "])"

/-- `ImportStatement` from `parser.rs`. -/
structure ImportStatement where
  path : ImportPath
  position : Position
deriving Repr, DecidableEq

/-- `AnnotationData` from `parser.rs` (`Complex` holds an `FxHashMap`,
modelled as an association list). -/
inductive AnnotData where
  | Simple (value : String)
  | Complex (entries : List (String × String))
  | Empty
deriving Repr, DecidableEq

/-- The `Annotation` AST node from `parser.rs` (named `Annot` here). -/
structure Annot where
  name : String
  data : AnnotData
  position : Position
deriving Repr, DecidableEq

/-- `ArrayConstraints` from `parser.rs` (`u32` bounds as `Nat`). -/
structure ArrayConstraints where
  min : Option Nat
  max : Option Nat
deriving Repr, DecidableEq

/-- `TypeConstraints` from `parser.rs` (`f64` bounds as exact rationals). -/
structure TypeConstraints where
  min : Option ℚ
  max : Option ℚ
deriving Repr, DecidableEq

/-- `DynamicReferenceType` from `parser.rs`. -/
inductive DynamicReferenceType where
  | Field (name : String)
  | SpecialKey (key : String)
deriving Repr, DecidableEq

/-- `DynamicReference` from `parser.rs`. -/
structure DynamicReference where
  reference : DynamicReferenceType
  position : Position
deriving Repr, DecidableEq

/-- `SpreadExpression` as the validator and resolver use it
(`spread.base_path` in `validator.rs` / `resolver.rs`; the copy of the
struct in `parser.rs` carries `namespace` and `registry` fields instead —
the source crate mixes two prototype branches and does not compile as a
whole; the validator branch is authoritative for the claims below). -/
structure SpreadExpression where
  base_path : String
  dynamic_key : Option DynamicReference
  annotations : List Annot
  position : Position
deriving Repr, DecidableEq

/-- `LiteralValue` from `parser.rs` (the `f64` payload as an exact
rational). -/
inductive LiteralValue where
  | Str (s : String)
  | Number (q : ℚ)
  | Boolean (b : Bool)
deriving Repr, DecidableEq

mutual
/-- `TypeExpression` from `parser.rs`.  The `Struct` payload is the
`&[FieldDeclaration]` slice that `validator.rs::validate_struct_type`
consumes and `resolver.rs` produces (`TypeExpression::Struct(struct_decl.
fields.clone())`); the `parser.rs` branch declares `Vec<StructMember>`
there instead — again a branch mismatch, resolved in favour of the
validator/resolver branch that the claims cite. -/
inductive TypeExpression where
  | Simple (name : String)
  | Array (element_type : TypeExpression) (constraints : Option ArrayConstraints)
  | Union (variants : List TypeExpression)
  | Struct (fields : List FieldDeclaration)
  | Generic (name : String) (type_args : List TypeExpression)
  | Reference (path : ImportPath)
  | Spread (spread : SpreadExpression)
  | Literal (value : LiteralValue)
  | Constrained (base_type : TypeExpression) (constraints : TypeConstraints)

/-- `FieldDeclaration` from `parser.rs`. -/
inductive FieldDeclaration where
  | mk (name : String) (field_type : TypeExpression) (optional : Bool)
       (annotations : List Annot) (position : Position)
end

/-- Field accessor: `FieldDeclaration.name`. -/
def FieldDeclaration.name : FieldDeclaration → String
  | .mk n _ _ _ _ => n

/-- Field accessor: `FieldDeclaration.field_type`. -/
def FieldDeclaration.field_type : FieldDeclaration → TypeExpression
  | .mk _ t _ _ _ => t

/-- Field accessor: `FieldDeclaration.optional`. -/
def FieldDeclaration.optional : FieldDeclaration → Bool
  | .mk _ _ o _ _ => o

/-- `StructDeclaration` as the resolver uses it (`struct_decl.fields`,
a `Vec<FieldDeclaration>`; `parser.rs` declares `members:
Vec<StructMember>` — same branch mismatch as `TypeExpression::Struct`). -/
structure StructDeclaration where
  name : String
  fields : List FieldDeclaration
  annotations : List Annot
  position : Position

/-- `EnumVariant` from `parser.rs`. -/
structure EnumVariant where
  name : String
  value : Option LiteralValue
  annotations : List Annot
  position : Position
deriving Repr, DecidableEq

/-- `EnumDeclaration` from `parser.rs`. -/
structure EnumDeclaration where
  name : String
  base_type : Option String
  variants : List EnumVariant
  annotations : List Annot
  position : Position
deriving Repr, DecidableEq

/-- `TypeDeclaration` from `parser.rs`. -/
structure TypeDeclaration where
  name : String
  type_params : List String
  type_expr : TypeExpression
  annotations : List Annot
  position : Position

/-- `DispatchSource` from `parser.rs`. -/
structure DispatchSource where
  registry : String
  key : Option String
  position : Position
deriving Repr, DecidableEq

/-- `DispatchTarget` from `parser.rs`. -/
inductive DispatchTarget where
  | Specific (name : String)
  | Unknown
deriving Repr, DecidableEq

/-- `DispatchDeclaration` from `parser.rs`. -/
structure DispatchDeclaration where
  source : DispatchSource
  targets : List DispatchTarget
  target_type : TypeExpression
  annotations : List Annot
  position : Position

/-- `Declaration` from `parser.rs`. -/
inductive Declaration where
  | Struct (d : StructDeclaration)
  | Enum (d : EnumDeclaration)
  | TypeD (d : TypeDeclaration)
  | Dispatch (d : DispatchDeclaration)

/-- `McDocFile` from `parser.rs`. -/
structure McDocFile where
  imports : List ImportStatement
  declarations : List Declaration

-- ================================
-- registry.rs
-- ================================

/-- `RegistryDependency` from `lib.rs`. -/
structure RegistryDependency where
  registry : String
  identifier : String
  is_tag : Bool
deriving Repr, DecidableEq

/-- `Registry` from `registry.rs`.  `entries` is an `FxHashSet` (modelled
as a duplicate-free list via `add_entry`), `tags` an `FxHashMap`. -/
structure Registry where
  name : String
  entries : List String
  tags : List (String × List String)
  version : String
deriving Repr, DecidableEq

/-- `Registry::new`. -/
def Registry.new (name version : String) : Registry :=
  { name := name, entries := [], tags := [], version := version }

/-- `Registry::add_entry` (`HashSet::insert`: no duplicates). -/
def Registry.add_entry (r : Registry) (resource_location : String) : Registry :=
  if r.entries.contains resource_location then r
  else { r with entries := r.entries ++ [resource_location] }

/-- `Registry::add_tag` (`HashMap::insert`: overwrite). -/
def Registry.add_tag (r : Registry) (tag_name : String) (entries : List String) :
    Registry :=
  { r with tags := alistInsert r.tags tag_name entries }

/-- `Registry::contains`. -/
def Registry.contains (r : Registry) (resource_location : String) : Bool :=
  r.entries.contains resource_location

/-- `Registry::contains_tag`. -/
def Registry.contains_tag (r : Registry) (tag_name : String) : Bool :=
  alistHas r.tags tag_name

/-- `Registry::from_json` from `registry.rs`: reads the keys of an
`entries` object member and the string arrays of a `tags` object member;
any other shape contributes nothing. -/
def Registry.from_json (name version : String) (json : Json) :
    Except McDocParserError Registry :=
  let registry := Registry.new name version
  let registry :=
    match (json.objGet "entries").bind Json.as_object with
    | some entries => entries.foldl (fun r kv => r.add_entry kv.fst) registry
    | none => registry
  let registry :=
    match (json.objGet "tags").bind Json.as_object with
    | some tags =>
      tags.foldl
        (fun r kv =>
          match kv.snd.as_array with
          | some entries_array =>
            r.add_tag kv.fst (entries_array.filterMap Json.as_str)
          | none => r)
        registry
    | none => registry
  .ok registry

/-- `RegistryManager` from `registry.rs`. -/
structure RegistryManager where
  registries : List (String × Registry)

/-- `RegistryManager::new`. -/
def RegistryManager.new : RegistryManager := { registries := [] }

/-- `RegistryManager::add_registry`. -/
def RegistryManager.add_registry (m : RegistryManager) (r : Registry) :
    RegistryManager :=
  { m with registries := alistInsert m.registries r.name r }

/-- `RegistryManager::load_registry_from_json`. -/
def RegistryManager.load_registry_from_json (m : RegistryManager)
    (name version : String) (json : Json) :
    Except McDocParserError RegistryManager :=
  match Registry.from_json name version json with
  | .ok registry => .ok (m.add_registry registry)
  | .error e => .error e

/-- `RegistryManager::has_registry`. -/
def RegistryManager.has_registry (m : RegistryManager) (name : String) : Bool :=
  alistHas m.registries name

/-- `RegistryManager::validate_resource_location` from `registry.rs`. -/
def RegistryManager.validate_resource_location (m : RegistryManager)
    (registry_name resource_location : String) (is_tag : Bool) :
    Except McDocParserError Bool :=
  match alistGet? m.registries registry_name with
  | none => .error (.InvalidRegistry "unknown" resource_location registry_name)
  | some registry =>
    if is_tag then
      let tag_name :=
        if strStartsWith resource_location "#" then
          String.mk (resource_location.data.drop 1)
        else resource_location
      .ok (registry.contains_tag tag_name)
    else
      let found := registry.contains resource_location
      if !found && strStartsWith resource_location "minecraft:" then
        .ok (registry.contains (String.mk (resource_location.data.drop 10)))
      else if !found && !strContainsChar resource_location ':' then
        .ok (registry.contains ("minecraft:" ++ resource_location))
      else
        .ok found

/-- `RegistryManager::looks_like_resource_location` from `registry.rs`
(Rust `is_alphanumeric` modelled as ASCII). -/
def RegistryManager.looks_like_resource_location (_ : RegistryManager)
    (s : String) : Bool :=
  let s' := if strStartsWith s "#" then String.mk (s.data.drop 1) else s
  strContainsChar s' ':' &&
    s'.data.all (fun c => c.isAlphanum || c = ':' || c = '_' || c = '/' || c = '.')

/-- `RegistryManager::infer_registry_type` from `registry.rs`: path-based
heuristics. -/
def RegistryManager.infer_registry_type (_ : RegistryManager)
    (path : String) (_value : String) : String :=
  if strContains path "item" then "item"
  else if strContains path "block" then "block"
  else if strContains path "recipe" then "recipe"
  else if strContains path "enchantment" then "enchantment"
  else if strContains path "biome" then "worldgen/biome"
  else if strContains path "damage" then "damage_type"
  else if strContains path "sound" then "sound_event"
  else "unknown"

mutual
/-- `RegistryManager::scan_json_recursive` from `registry.rs` (accumulator
passes the growing `Vec<RegistryDependency>`). -/
def RegistryManager.scan_json_recursive (m : RegistryManager) (value : Json)
    (path : String) (registries : List RegistryDependency) :
    List RegistryDependency :=
  match value with
  | .str s =>
    if m.looks_like_resource_location s then
      registries ++ [{ registry := m.infer_registry_type path s,
                       identifier := s,
                       is_tag := strStartsWith s "#" }]
    else registries
  | .obj fields => RegistryManager.scanObjGo m path fields registries
  | .arr elems => RegistryManager.scanArrGo m path 0 elems registries
  | _ => registries

/-- Object-member loop of `scan_json_recursive`. -/
def RegistryManager.scanObjGo (m : RegistryManager) (path : String) :
    List (String × Json) → List RegistryDependency → List RegistryDependency
  | [], registries => registries
  | (key, val) :: rest, registries =>
    let new_path := if path = "" then key else path ++ "." ++ key
    RegistryManager.scanObjGo m path rest
      (RegistryManager.scan_json_recursive m val new_path registries)

/-- Array-element loop of `scan_json_recursive` (with running index). -/
def RegistryManager.scanArrGo (m : RegistryManager) (path : String) :
    Nat → List Json → List RegistryDependency → List RegistryDependency
  | _, [], registries => registries
  | index, val :: rest, registries =>
    let new_path := path ++ "[" ++ toString index ++ "]"
    RegistryManager.scanArrGo m path (index + 1) rest
      (RegistryManager.scan_json_recursive m val new_path registries)
end

/-- `RegistryManager::scan_required_registries` from `registry.rs`. -/
def RegistryManager.scan_required_registries (m : RegistryManager) (json : Json) :
    List RegistryDependency :=
  RegistryManager.scan_json_recursive m json "" []

-- ================================
-- resolver.rs
-- ================================

/-- `ResolvedModule` from `resolver.rs`. -/
structure ResolvedModule where
  path : String
  file : McDocFile
  dependencies : List String

/-- `ImportResolver` from `resolver.rs`. -/
structure ImportResolver where
  modules : List (String × McDocFile)
  resolved : List (String × ResolvedModule)
  resolution_order : List String

/-- `ImportResolver::new`. -/
def ImportResolver.new : ImportResolver :=
  { modules := [], resolved := [], resolution_order := [] }

/-- `ImportResolver::add_module` (`HashMap::insert`). -/
def ImportResolver.add_module (r : ImportResolver) (path : String) (file : McDocFile) :
    ImportResolver :=
  { r with modules := alistInsert r.modules path file }

/-- `ImportResolver::resolve_import_path` from `resolver.rs`: an absolute
path joins all its segments with `/`; a relative (`super::…`) path drops the
last segment of the current module and appends all import segments.  The
`is_empty` error branch of the source is dead code: `str::split` always
yields at least one part. -/
def ImportResolver.resolve_import_path (_ : ImportResolver) (current_module : String)
    (import_path : ImportPath) : Except McDocParserError String :=
  match import_path with
  | .Absolute segments => .ok (joinSep "/" segments)
  | .Relative segments =>
    let current_parts := strSplit current_module '/'
    if current_parts.isEmpty then
      .error (.ModuleNotFound (joinSep "/" segments) current_module)
    else
      .ok (joinSep "/" (current_parts.dropLast ++ segments))

/-- Import-resolution loop shared by `build_dependency_graph` and
`resolve_module`: resolve every import of a module. -/
def ImportResolver.resolveImportsOf (r : ImportResolver) (module_path : String) :
    List ImportStatement → Except McDocParserError (List String)
  | [] => .ok []
  | imp :: rest =>
    match r.resolve_import_path module_path imp.path with
    | .error e => .error e
    | .ok p =>
      match r.resolveImportsOf module_path rest with
      | .error e => .error e
      | .ok ps => .ok (p :: ps)

/-- Module loop of `ImportResolver::build_dependency_graph`. -/
def ImportResolver.buildGraphGo (r : ImportResolver) :
    List (String × McDocFile) → Except McDocParserError (List (String × List String))
  | [] => .ok []
  | (module_path, file) :: rest =>
    match r.resolveImportsOf module_path file.imports with
    | .error e => .error e
    | .ok deps =>
      match r.buildGraphGo rest with
      | .error e => .error e
      | .ok g => .ok ((module_path, deps) :: g)

/-- `ImportResolver::build_dependency_graph` from `resolver.rs`. -/
def ImportResolver.build_dependency_graph (r : ImportResolver) :
    Except McDocParserError (List (String × List String)) :=
  r.buildGraphGo r.modules

/-- Dependency loop of `topological_sort`: for each dependency of `module`,
check it exists among the added modules (else `ModuleNotFound`), append
`module` to the adjacency list of the dependency and bump the in-degree of
`module`. -/
def topoStepDeps (modules : List (String × McDocFile)) (module : String) :
    List String → List (String × Nat) × List (String × List String) →
    Except McDocParserError (List (String × Nat) × List (String × List String))
  | [], st => .ok st
  | dep :: rest, (in_degree, adjacency) =>
    if alistHas modules dep then
      topoStepDeps modules module rest
        (alistUpdate in_degree module (· + 1),
         alistUpdate adjacency dep (· ++ [module]))
    else
      .error (.ModuleNotFound dep module)

/-- Module loop of the degree/adjacency construction of `topological_sort`. -/
def topoBuild (modules : List (String × McDocFile)) :
    List (String × List String) →
    List (String × Nat) × List (String × List String) →
    Except McDocParserError (List (String × Nat) × List (String × List String))
  | [], st => .ok st
  | (module, deps) :: rest, st =>
    match topoStepDeps modules module deps st with
    | .error e => .error e
    | .ok st' => topoBuild modules rest st'

/-- Inner loop of Kahn's algorithm: decrement the in-degree of every
dependent of the popped module, enqueueing each one whose degree reaches
zero.  (The `getD 0` default is unreachable: the source `unwrap`s.) -/
def processAdj : List String → List (String × Nat) → List String →
    List (String × Nat) × List String
  | [], in_degree, queue => (in_degree, queue)
  | m :: rest, in_degree, queue =>
    let in_degree' := alistUpdate in_degree m (fun d => d - 1)
    let queue' := if (alistGet? in_degree' m).getD 0 = 0 then queue ++ [m] else queue
    processAdj rest in_degree' queue'

/-- Main loop of Kahn's algorithm (`while let Some(current) = queue.pop_front()`).
Fueled; the chosen fuel exceeds the number of possible pops. -/
def kahnLoop (adjacency : List (String × List String)) :
    Nat → List (String × Nat) → List String → List String → List String
  | 0, _, _, result => result
  | fuel + 1, in_degree, queue, result =>
    match queue with
    | [] => result
    | current :: rest =>
      let st := processAdj ((alistGet? adjacency current).getD []) in_degree rest
      kahnLoop adjacency fuel st.1 st.2 (result ++ [current])

/-- Set insertion for the DFS bookkeeping of `find_cycle`
(`HashSet::insert`). -/
def setInsert (l : List String) (x : String) : List String :=
  if l.contains x then l else l ++ [x]

mutual
/-- The recursive `dfs` of `ImportResolver::find_cycle` (visited set,
recursion stack and path are threaded explicitly; the result carries the
updated sets). -/
def dfsCycle (graph : List (String × List String)) :
    Nat → String → List String → List String → List String →
    Option (List String) × List String × List String × List String
  | 0, _, visited, rec_stack, path => (none, visited, rec_stack, path)
  | fuel + 1, node, visited, rec_stack, path =>
    let visited := setInsert visited node
    let rec_stack := setInsert rec_stack node
    let path := path ++ [node]
    match dfsNeighbors graph fuel ((alistGet? graph node).getD []) visited rec_stack path with
    | (some cycle, v, rs, p) => (some cycle, v, rs, p)
    | (none, v, rs, p) =>
      (none, v, rs.filter (· ≠ node), p.dropLast)

/-- Neighbor loop of the `dfs` of `find_cycle`. -/
def dfsNeighbors (graph : List (String × List String)) :
    Nat → List String → List String → List String → List String →
    Option (List String) × List String × List String × List String
  | _, [], visited, rec_stack, path => (none, visited, rec_stack, path)
  | fuel, neighbor :: rest, visited, rec_stack, path =>
    if rec_stack.contains neighbor then
      let cycle_start := (path.indexOf neighbor)
      (some (path.drop cycle_start ++ [neighbor]), visited, rec_stack, path)
    else if !visited.contains neighbor then
      match dfsCycle graph fuel neighbor visited rec_stack path with
      | (some cycle, v, rs, p) => (some cycle, v, rs, p)
      | (none, v, rs, p) => dfsNeighbors graph fuel rest v rs p
    else
      dfsNeighbors graph fuel rest visited rec_stack path
end

/-- Outer loop of `ImportResolver::find_cycle` over the remaining nodes. -/
def findCycleGo (graph : List (String × List String)) (fuel : Nat) :
    List String → List String → Option (List String)
  | [], _ => none
  | node :: rest, visited =>
    if !visited.contains node then
      match dfsCycle graph fuel node visited [] [] with
      | (some cycle, _, _, _) => some cycle
      | (none, v, _, _) => findCycleGo graph fuel rest v
    else
      findCycleGo graph fuel rest visited

/-- `ImportResolver::find_cycle` from `resolver.rs` (fallback: the remaining
modules themselves). -/
def find_cycle (remaining : List String) (graph : List (String × List String)) :
    List String :=
  match findCycleGo graph (graph.length + remaining.length + 2) remaining [] with
  | some cycle => cycle
  | none => remaining

/-- `ImportResolver::topological_sort` from `resolver.rs`: missing-module
check, degree/adjacency construction, Kahn loop, cycle detection, and on
success the resolution order is recorded. -/
def ImportResolver.topological_sort (r : ImportResolver)
    (graph : List (String × List String)) :
    Except McDocParserError (List String × ImportResolver) :=
  let in_degree0 := graph.map (fun p => (p.fst, (0 : Nat)))
  let adjacency0 := graph.map (fun p => (p.fst, ([] : List String)))
  match topoBuild r.modules graph (in_degree0, adjacency0) with
  | .error e => .error e
  | .ok (in_degree, adjacency) =>
    let queue := (in_degree.filter (fun p => p.snd = 0)).map Prod.fst
    let result := kahnLoop adjacency (graph.length + 1) in_degree queue []
    if result.length ≠ graph.length then
      let remaining := (graph.map Prod.fst).filter (fun k => !result.contains k)
      .error (.CircularDependency (find_cycle remaining graph))
    else
      .ok (result, { r with resolution_order := result })

/-- `ImportResolver::resolve_module` from `resolver.rs`. -/
def ImportResolver.resolve_module (r : ImportResolver) (module_path : String) :
    Except McDocParserError ImportResolver :=
  if alistHas r.resolved module_path then .ok r
  else
    match alistGet? r.modules module_path with
    | none => .error (.ModuleNotFound module_path "resolver")
    | some file =>
      match r.resolveImportsOf module_path file.imports with
      | .error e => .error e
      | .ok dependencies =>
        .ok { r with
              resolved := alistInsert r.resolved module_path
                { path := module_path, file := file, dependencies := dependencies } }

/-- The `for module_path in resolution_order` loop of `resolve_all`. -/
def ImportResolver.resolveLoop :
    ImportResolver → List String → Except McDocParserError Unit × ImportResolver
  | r, [] => (.ok (), r)
  | r, m :: rest =>
    match r.resolve_module m with
    | .error e => (.error e, r)
    | .ok r' => ImportResolver.resolveLoop r' rest

/-- `ImportResolver::resolve_all` from `resolver.rs`: build the dependency
graph, topologically sort it, then resolve the modules in order.  The pair
returns the outcome together with the resolver state afterwards (the source
mutates `&mut self`). -/
def ImportResolver.resolve_all (r : ImportResolver) :
    Except McDocParserError Unit × ImportResolver :=
  match r.build_dependency_graph with
  | .error e => (.error e, r)
  | .ok graph =>
    match r.topological_sort graph with
    | .error e => (.error e, r)
    | .ok (order, r1) => ImportResolver.resolveLoop r1 order

/-- Target loop of `ImportResolver::dispatch_matches`. -/
def dispatchTargetsMatch (resource_type : String) : List DispatchTarget → Bool
  | [] => false
  | .Specific target_name :: rest =>
    if target_name = resource_type then true
    else dispatchTargetsMatch resource_type rest
  | .Unknown :: _ => true

/-- `ImportResolver::dispatch_matches` from `resolver.rs` (the namespace
argument is ignored by the source). -/
def ImportResolver.dispatch_matches (_ : ImportResolver) (dispatch : DispatchDeclaration)
    (_namespace : String) (resource_type : String) : Bool :=
  let source_registry := dispatch.source.registry
  if source_registry = "resource" then
    dispatchTargetsMatch resource_type dispatch.targets
  else if source_registry = resource_type then true
  else false

/-- Declaration loop of `find_dispatch_target` within one module. -/
def ImportResolver.findDispatchInDecls (r : ImportResolver)
    (namespace_ resource_type : String) :
    List Declaration → Option DispatchDeclaration
  | [] => none
  | .Dispatch dispatch :: rest =>
    if r.dispatch_matches dispatch namespace_ resource_type then some dispatch
    else r.findDispatchInDecls namespace_ resource_type rest
  | _ :: rest => r.findDispatchInDecls namespace_ resource_type rest

/-- Module loop of `find_dispatch_target`. -/
def ImportResolver.findDispatchGo (r : ImportResolver)
    (namespace_ resource_type : String) :
    List (String × ResolvedModule) → Option DispatchDeclaration
  | [] => none
  | (_, resolved_module) :: rest =>
    match r.findDispatchInDecls namespace_ resource_type
        resolved_module.file.declarations with
    | some d => some d
    | none => r.findDispatchGo namespace_ resource_type rest

/-- `ImportResolver::find_dispatch_target` from `resolver.rs`. -/
def ImportResolver.find_dispatch_target (r : ImportResolver)
    (namespace_ resource_type : String) : Option DispatchDeclaration :=
  r.findDispatchGo namespace_ resource_type r.resolved

/-- Declaration search of `resolve_type_reference`: a `Type` alias yields its
type expression, a `Struct` its fields as a struct type, an `Enum` its base
type (default `"string"`). -/
def searchTypeInDecls (type_name : String) : List Declaration → Option TypeExpression
  | [] => none
  | .TypeD type_decl :: rest =>
    if type_decl.name = type_name then some type_decl.type_expr
    else searchTypeInDecls type_name rest
  | .Struct struct_decl :: rest =>
    if struct_decl.name = type_name then some (.Struct struct_decl.fields)
    else searchTypeInDecls type_name rest
  | .Enum enum_decl :: rest =>
    if enum_decl.name = type_name then
      some (.Simple (enum_decl.base_type.getD "string"))
    else searchTypeInDecls type_name rest
  | .Dispatch _ :: rest => searchTypeInDecls type_name rest

/-- `ImportResolver::resolve_type_reference` from `resolver.rs`. -/
def ImportResolver.resolve_type_reference (r : ImportResolver)
    (import_path : ImportPath) : Option TypeExpression :=
  let module_path :=
    match import_path with
    | .Absolute segments => joinSep "/" segments
    | .Relative segments => joinSep "/" segments
  let type_name :=
    match import_path with
    | .Absolute segments => segments.getLast?
    | .Relative segments => segments.getLast?
  match type_name with
  | none => none
  | some tn =>
    match alistGet? r.resolved module_path with
    | none => none
    | some resolved_module => searchTypeInDecls tn resolved_module.file.declarations

/-- Target loop of `resolve_spread_target` within one dispatch. -/
def spreadTargetsMatch (dynamic_value : String) (target_type : TypeExpression) :
    List DispatchTarget → Option TypeExpression
  | [] => none
  | .Specific target_name :: rest =>
    if target_name = dynamic_value then some target_type
    else spreadTargetsMatch dynamic_value target_type rest
  | .Unknown :: rest =>
    if dynamic_value = "" then some target_type
    else spreadTargetsMatch dynamic_value target_type rest

/-- Declaration loop of `resolve_spread_target`. -/
def spreadSearchDecls (registry_type dynamic_value : String) :
    List Declaration → Option TypeExpression
  | [] => none
  | .Dispatch dispatch :: rest =>
    if dispatch.source.registry = registry_type then
      match spreadTargetsMatch dynamic_value dispatch.target_type dispatch.targets with
      | some t => some t
      | none => spreadSearchDecls registry_type dynamic_value rest
    else spreadSearchDecls registry_type dynamic_value rest
  | _ :: rest => spreadSearchDecls registry_type dynamic_value rest

/-- Module loop of `resolve_spread_target`. -/
def spreadSearchModules (registry_type dynamic_value : String) :
    List (String × ResolvedModule) → Option TypeExpression
  | [] => none
  | (_, resolved_module) :: rest =>
    match spreadSearchDecls registry_type dynamic_value
        resolved_module.file.declarations with
    | some t => some t
    | none => spreadSearchModules registry_type dynamic_value rest

/-- `ImportResolver::resolve_spread_target` from `resolver.rs`. -/
def ImportResolver.resolve_spread_target (r : ImportResolver)
    (base_path dynamic_value : String) : Option TypeExpression :=
  match strSplit base_path ':' with
  | [_namespace, registry_type] =>
    spreadSearchModules registry_type dynamic_value r.resolved
  | _ => none

-- ================================
-- validator.rs
-- ================================

/-- `McDocValidator` from `validator.rs`. -/
structure McDocValidator where
  resolver : ImportResolver
  registry_manager : RegistryManager
  current_version : Option MinecraftVersion

/-- `McDocValidator::new`. -/
def McDocValidator.new : McDocValidator :=
  { resolver := ImportResolver.new
    registry_manager := RegistryManager.new
    current_version := none }

/-- `McDocValidator::set_minecraft_version` from `validator.rs`. -/
def McDocValidator.set_minecraft_version (s : McDocValidator) (version : String) :
    Except McDocParserError McDocValidator :=
  match MinecraftVersion.parse version with
  | none => .error (.InvalidResourceId ("Invalid version: " ++ version))
  | some v => .ok { s with current_version := some v }

/-- `McDocValidator::load_registry` from `validator.rs`. -/
def McDocValidator.load_registry (s : McDocValidator) (name version : String)
    (json : Json) : Except McDocParserError McDocValidator :=
  match s.registry_manager.load_registry_from_json name version json with
  | .error e => .error e
  | .ok m => .ok { s with registry_manager := m }

/-- `McDocValidator::extract_dynamic_value` from `validator.rs`. -/
def extract_dynamic_value (json : Json) (dynamic_ref : DynamicReference)
    (_context : String) : Except (List McDocParserError) String :=
  match dynamic_ref.reference with
  | .Field field_name =>
    match json.as_object with
    | some obj =>
      match alistGet? obj field_name with
      | some field_value =>
        match field_value.as_str with
        | some string_value => .ok string_value
        | none =>
          .error [.ValidationError
            ("Dynamic reference field " ++ sQuote ++ field_name ++ sQuote ++
             " must be a string") 0 0]
      | none =>
        .error [.ValidationError
          ("Dynamic reference field " ++ sQuote ++ field_name ++ sQuote ++
           " not found") 0 0]
    | none =>
      .error [.ValidationError "Cannot extract dynamic field from non-object" 0 0]
  | .SpecialKey key => .ok key

mutual
/-- `McDocValidator::validate_json_against_structure` from `validator.rs`
(the methods of this mutual block take `&self` in the source but read only
`self.resolver`, which is what they receive here).
Fueled: the fuel drops on every step so that the unbounded recursion through
type references (which can loop forever in the source on cyclic schemas) is
total here; `none` models such divergence.  The source `match` has no arm
for the `Literal` and `Constrained` variants (they belong to a parser
prototype branch the validator branch never compiled against), so they are
modelled as stuck. -/
def validate_json_against_structure (resolver : ImportResolver) :
    Nat → Json → TypeExpression → List String → String →
    Option (Except (List McDocParserError) Unit)
  | 0, _, _, _, _ => none
  | fuel + 1, json, type_expr, path, context =>
    match type_expr with
    | .Simple type_name => validate_simple_type resolver fuel json type_name path context
    | .Array element_type constraints =>
      if !json.is_array then
        some (.error [.ValidationError
          ("Expected array but found " ++ json_type_name json ++ " at path: " ++
           joinSep "." path) 0 0])
      else
        let array := json.as_array.getD []
        let array_len := array.length
        let sizeCheck : Except (List McDocParserError) Unit :=
          match constraints with
          | none => .ok ()
          | some cs =>
            match cs.min with
            | some mn =>
              if array_len < mn then
                .error [.ValidationError
                  ("Array too short: expected at least " ++ toString mn ++
                   " elements, found " ++ toString array_len ++ " at path: " ++
                   joinSep "." path) 0 0]
              else
                match cs.max with
                | some mx =>
                  if array_len > mx then
                    .error [.ValidationError
                      ("Array too long: expected at most " ++ toString mx ++
                       " elements, found " ++ toString array_len ++ " at path: " ++
                       joinSep "." path) 0 0]
                  else .ok ()
                | none => .ok ()
            | none =>
              match cs.max with
              | some mx =>
                if array_len > mx then
                  .error [.ValidationError
                    ("Array too long: expected at most " ++ toString mx ++
                     " elements, found " ++ toString array_len ++ " at path: " ++
                     joinSep "." path) 0 0]
                else .ok ()
              | none => .ok ()
        match sizeCheck with
        | .error es => some (.error es)
        | .ok _ =>
          match validateArrayElems resolver fuel element_type path context 0 array with
          | none => none
          | some [] => some (.ok ())
          | some all_errors => some (.error all_errors)
    | .Union variants => validateUnionGo resolver fuel json variants path context
    | .Struct fields =>
      if !json.is_object then
        some (.error [.ValidationError
          ("Expected object but found " ++ json_type_name json ++ " at path: " ++
           joinSep "." path) 0 0])
      else
        let obj := json.as_object.getD []
        match validateStructFields resolver fuel obj path context fields with
        | none => none
        | some [] => some (.ok ())
        | some all_errors => some (.error all_errors)
    | .Generic name _type_args => validate_simple_type resolver fuel json name path context
    | .Reference import_path =>
      match resolver.resolve_type_reference import_path with
      | some resolved_type =>
        validate_json_against_structure resolver fuel json resolved_type path context
      | none =>
        some (.error [.ValidationError
          ("Unresolved type reference: " ++ import_path.debugStr) 0 0])
    | .Spread spread => validate_spread resolver fuel json spread path context
    | .Literal _ => none
    | .Constrained _ _ => none
termination_by fuel _ _ _ _ => (fuel, 0)

/-- `McDocValidator::validate_simple_type` from `validator.rs`. -/
def validate_simple_type (resolver : ImportResolver) (fuel : Nat) (json : Json)
    (type_name : String) (path : List String) (context : String) :
    Option (Except (List McDocParserError) Unit) :=
  let finish : Bool → Option (Except (List McDocParserError) Unit) := fun is_valid =>
    if is_valid then some (.ok ())
    else
      some (.error [.ValidationError
        ("Expected type " ++ sQuote ++ type_name ++ sQuote ++ " but found " ++
         json_type_name json ++ " at path: " ++ joinSep "." path) 0 0])
  if type_name = "string" then finish json.is_string
  else if type_name = "int" || type_name = "integer" then finish json.is_i64
  else if type_name = "float" || type_name = "number" then
    finish (json.is_f64 || json.is_i64)
  else if type_name = "boolean" || type_name = "bool" then finish json.is_boolean
  else if type_name = "null" then finish json.is_null
  else
    match resolver.resolve_type_reference (.Absolute [type_name]) with
    | some resolved_type =>
      validate_json_against_structure resolver fuel json resolved_type path context
    | none =>
      finish (type_name.data.all (fun c => c.isAlphanum || c = '_'))
termination_by (fuel, 1)

/-- The `for variant in variants` loop of the `Union` case: first success
wins; if every variant fails, the collected per-variant errors are discarded
and a single union error is produced. -/
def validateUnionGo (resolver : ImportResolver) (fuel : Nat) (json : Json) :
    List TypeExpression → List String → String →
    Option (Except (List McDocParserError) Unit)
  | [], path, _ =>
    some (.error [.ValidationError
      ("Value does not match any variant in union type at path: " ++
       joinSep "." path) 0 0])
  | variant :: rest, path, context =>
    match validate_json_against_structure resolver fuel json variant path context with
    | none => none
    | some (.ok _) => some (.ok ())
    | some (.error _) => validateUnionGo resolver fuel json rest path context
termination_by variants _ _ => (fuel, variants.length + 1)

/-- The element loop of `validate_array_type` (running index, errors of all
elements are collected in order). -/
def validateArrayElems (resolver : ImportResolver) (fuel : Nat)
    (element_type : TypeExpression) (path : List String) (context : String) :
    Nat → List Json → Option (List McDocParserError)
  | _, [] => some []
  | index, element :: rest =>
    let element_path := path ++ ["[" ++ toString index ++ "]"]
    match validate_json_against_structure resolver fuel element element_type element_path
        context with
    | none => none
    | some (.ok _) => validateArrayElems resolver fuel element_type path context (index + 1) rest
    | some (.error errs) =>
      match validateArrayElems resolver fuel element_type path context (index + 1) rest with
      | none => none
      | some more => some (errs ++ more)
termination_by _ elems => (fuel, elems.length + 1)

/-- The field loop of `validate_struct_type`: a missing required field
produces a `Required field '…' is missing at path: …` error; a present field
is validated against its type at the extended path; a missing optional field
is fine. -/
def validateStructFields (resolver : ImportResolver) (fuel : Nat)
    (obj : List (String × Json)) (path : List String) (context : String) :
    List FieldDeclaration → Option (List McDocParserError)
  | [] => some []
  | field :: rest =>
    let field_value := alistGet? obj field.name
    let field_path := path ++ [field.name]
    match field_value, field.optional with
    | none, false =>
      match validateStructFields resolver fuel obj path context rest with
      | none => none
      | some more =>
        some ([.ValidationError
          ("Required field " ++ sQuote ++ field.name ++ sQuote ++
           " is missing at path: " ++ joinSep "." path) 0 0] ++ more)
    | some value, _ =>
      match validate_json_against_structure resolver fuel value field.field_type field_path
          context with
      | none => none
      | some (.ok _) => validateStructFields resolver fuel obj path context rest
      | some (.error errs) =>
        match validateStructFields resolver fuel obj path context rest with
        | none => none
        | some more => some (errs ++ more)
    | none, true => validateStructFields resolver fuel obj path context rest
termination_by fields => (fuel, fields.length + 1)

/-- `McDocValidator::validate_spread_expression` from `validator.rs`. -/
def validate_spread (resolver : ImportResolver) (fuel : Nat) (json : Json)
    (spread : SpreadExpression) (path : List String) (context : String) :
    Option (Except (List McDocParserError) Unit) :=
  match spread.dynamic_key with
  | some dynamic_ref =>
    match extract_dynamic_value json dynamic_ref context with
    | .error es => some (.error es)
    | .ok dynamic_value =>
      match resolver.resolve_spread_target spread.base_path dynamic_value with
      | none =>
        some (.error [.ValidationError
          ("Cannot resolve spread target for " ++ sQuote ++ spread.base_path ++
           sQuote ++ " with dynamic value " ++ sQuote ++ dynamic_value ++ sQuote)
          0 0])
      | some target_type =>
        validate_json_against_structure resolver fuel json target_type path context
  | none =>
    match resolver.resolve_spread_target spread.base_path "" with
    | none =>
      some (.error [.ValidationError
        ("Cannot resolve static spread target for " ++ sQuote ++
         spread.base_path ++ sQuote) 0 0])
    | some target_type =>
      validate_json_against_structure resolver fuel json target_type path context
termination_by (fuel, 1)
end

/-- `McDocValidator::parse_resource_identifier` from `validator.rs`. -/
def McDocValidator.parse_resource_identifier (_ : McDocValidator)
    (resource_id : String) : Except (List McDocParserError) (String × String) :=
  match strSplit resource_id ':' with
  | [namespace_, resource_path] =>
    let resource_type := ((strSplit resource_path '/').headD resource_path)
    .ok (namespace_, resource_type)
  | _ =>
    .error [.ValidationError ("Invalid resource identifier format: " ++ resource_id) 0 0]

/-- `McDocValidator::validate_json_structure` from `validator.rs`. -/
def McDocValidator.validate_json_structure (s : McDocValidator) (fuel : Nat)
    (json : Json) (resource_id : ResourceId) :
    Option (Except (List McDocParserError) Unit) :=
  match s.parse_resource_identifier resource_id.toStr with
  | .error es => some (.error es)
  | .ok (namespace_, resource_type) =>
    match s.resolver.find_dispatch_target namespace_ resource_type with
    | none =>
      some (.error [.ValidationError
        ("No MCDOC dispatch found for resource type: " ++ resource_type) 0 0])
    | some dispatch_target =>
      validate_json_against_structure s.resolver fuel json dispatch_target.target_type []
        resource_id.toStr

/-- `McDocValidator::validate_json` from `validator.rs`: parse the resource
id (an error short-circuits), record the scanned registry dependencies,
run the structural validation and record its errors, then cross-check each
dependency whose registry is loaded. -/
def McDocValidator.validate_json (s : McDocValidator) (fuel : Nat) (json : Json)
    (resource_id : String) : Option ValidationResult :=
  let result : ValidationResult := { is_valid := true, errors := [], dependencies := [] }
  match ResourceId.parse resource_id with
  | .error e =>
    some (result.add_error
      { file := resource_id, path := "", message := e.toDisplayString,
        error_type := e.error_type, line := none, column := none })
  | .ok parsed_id =>
    let dependencies := s.registry_manager.scan_required_registries json
    let result := dependencies.foldl
      (fun r dep => r.add_dependency
        { resource_location := dep.identifier, registry_type := dep.registry,
          source_path := "auto-detected", source_file := some resource_id,
          is_tag := dep.is_tag })
      result
    match s.validate_json_structure fuel json parsed_id with
    | none => none
    | some structOutcome =>
      let result :=
        match structOutcome with
        | .ok _ => result
        | .error validation_errors =>
          validation_errors.foldl
            (fun (r : ValidationResult) (e : McDocParserError) => r.add_error
              { file := resource_id, path := "", message := e.toDisplayString,
                error_type := e.error_type,
                line := (e.position).map Prod.fst,
                column := (e.position).map Prod.snd })
            result
      let deps := result.dependencies
      some (deps.foldl
        (fun (r : ValidationResult) (dependency : McDocDependency) =>
          if s.registry_manager.has_registry dependency.registry_type then
            match s.registry_manager.validate_resource_location
                dependency.registry_type dependency.resource_location
                dependency.is_tag with
            | .ok false =>
              r.add_error
                { file := resource_id, path := dependency.source_path,
                  message := "Resource " ++ sQuote ++ dependency.resource_location ++
                    sQuote ++ " not found in registry " ++ sQuote ++
                    dependency.registry_type ++ sQuote,
                  error_type := .ValidationError, line := none, column := none }
            | .error e => r.add_error (McDocError.fromParserError e)
            | .ok true => r
          else r)
        result)

-- ================================
-- Concrete scenarios used by the claims
-- ================================

/-- Placeholder source position for hand-built AST values (positions are
never inspected by the validator or resolver). -/
def pos0 : Position := { line := 1, column := 1, offset := 0 }

/-- The `#[id(registry="item")]` annotation of the `TestRecipe` schema. -/
def annotIdItem : Annot :=
  { name := "id", data := .Complex [("registry", "item")], position := pos0 }

/-- AST of `dispatch minecraft:resource[test_recipe] to struct TestRecipe {
ingredient: #[id(registry="item")] string, result: #[id(registry="item")]
string }`, in the form the resolver consumes (registry `resource`, specific
target `test_recipe`, a struct of two required string fields carrying the
`id` annotations; type-position annotations are not representable in
`TypeExpression` and are attached to the fields). -/
def dispatchTestRecipe : DispatchDeclaration :=
  { source := { registry := "resource", key := some "test_recipe", position := pos0 }
    targets := [.Specific "test_recipe"]
    target_type := .Struct
      [ .mk "ingredient" (.Simple "string") false [annotIdItem] pos0
      , .mk "result" (.Simple "string") false [annotIdItem] pos0 ]
    annotations := []
    position := pos0 }

/-- The schema file holding the `TestRecipe` dispatch. -/
def fileTestRecipe : McDocFile :=
  { imports := [], declarations := [.Dispatch dispatchTestRecipe] }

/-- Validator loaded with the `TestRecipe` schema (module added and
resolved), no registries, no version. -/
def validatorC1 : McDocValidator :=
  { resolver := ((ImportResolver.new.add_module "test.mcdoc" fileTestRecipe).resolve_all).snd
    registry_manager := RegistryManager.new
    current_version := none }

/-- The JSON document `{"ingredient":"minecraft:stone"}`. -/
def jsonMissingResult : Json :=
  .obj [("ingredient", .str "minecraft:stone")]

/-- AST of the union type `( string | #[since="1.16"] [int] @ 4 | )`:
a union of `string` and `[int] @ 4` (array of `int` with exactly four
elements).  Annotations on a union branch are not representable in
`TypeExpression` and are dropped by the parser (`parse_single_type` discards
`_type_annotations`), so the `#[since]` does not appear. -/
def typeU : TypeExpression :=
  .Union [.Simple "string", .Array (.Simple "int") (some { min := some 4, max := some 4 })]

/-- A fresh validator whose current version is set to `1.15`. -/
def validatorV115 : McDocValidator :=
  match McDocValidator.new.set_minecraft_version "1.15" with
  | .ok s => s
  | .error _ => McDocValidator.new

/-- A fresh validator whose current version is set to `1.20`. -/
def validatorV120 : McDocValidator :=
  match McDocValidator.new.set_minecraft_version "1.20" with
  | .ok s => s
  | .error _ => McDocValidator.new

/-- An empty schema file (no imports, no declarations). -/
def emptyFile : McDocFile := { imports := [], declarations := [] }

/-- A schema file importing the absolute module path `missing`. -/
def fileImportingMissing : McDocFile :=
  { imports := [{ path := .Absolute ["missing"], position := pos0 }], declarations := [] }

/-- A schema file importing the absolute module path `a`. -/
def fileImportingA : McDocFile :=
  { imports := [{ path := .Absolute ["a"], position := pos0 }], declarations := [] }

/-- Resolver with module `a` importing a module that was never added and a
self-contained module `b`. -/
def resolverMissingDep : ImportResolver :=
  (ImportResolver.new.add_module "a" fileImportingMissing).add_module "b" emptyFile

/-- Resolver with a self-contained module `a` and a module `b` importing
`a` (the situation of `resolver_tests.rs::test_topological_sort_simple`). -/
def resolverAB : ImportResolver :=
  (ImportResolver.new.add_module "a" emptyFile).add_module "b" fileImportingA

/-- The message the validator actually produces for the missing `result`
field of the `TestRecipe` scenario (wrapped by the `Display` of
`ValidationError` at line 0, column 0; the struct path is empty). -/
def msgRequiredResultMissing : String :=
  "Validation error at line 0, column 0: Required field " ++ sQuote ++ "result" ++
  sQuote ++ " is missing at path: "

def errRequiredResultMissing : McDocError :=
  { file := "test_recipe", path := "", message := msgRequiredResultMissing,
    error_type := .ValidationError, line := some 0, column := some 0 }

def depMinecraftStone : McDocDependency :=
  { resource_location := "minecraft:stone", registry_type := "unknown",
    source_path := "auto-detected", source_file := some "test_recipe", is_tag := false }

def resultMissingField : ValidationResult :=
  { is_valid := false, errors := [errRequiredResultMissing],
    dependencies := [depMinecraftStone] }


/-- The registry value produced from the `entries`/`tags` object example
used below. -/
def registryObjExample : Registry :=
  { name := "item", entries := ["minecraft:stone", "minecraft:diamond"],
    tags := [("minecraft:swords", ["minecraft:diamond_sword"])], version := "1.0" }

/-- The `is_valid` / `errors` coupling: a result is marked valid exactly
when it carries no errors. -/
def ResultInv (r : ValidationResult) : Prop :=
  r.is_valid = true ↔ r.errors = []

/-- Number of dependencies of `m` in the graph that are not yet listed in
`result` (proof bookkeeping for Kahn's algorithm: the in-degree counter of
the source tracks exactly this quantity). -/
def pendingDeps (graph : List (String × List String)) (m : String)
    (result : List String) : Nat :=
  ((alistGet? graph m).getD []).countP (fun d => decide (d ∉ result))


-- ================================
-- Theorems
-- ================================

theorem splitSep_ne_nil (sep : Char) : ∀ l : List Char, splitSep sep l ≠ []
  | [] => by simp [splitSep]
  | c :: rest => by
    have ih := splitSep_ne_nil sep rest
    simp only [splitSep]
    rcases h : splitSep sep rest with _ | ⟨part, parts⟩
    · exact absurd h ih
    · by_cases hc : c = sep <;> simp [hc]

theorem splitSep_length (sep : Char) : ∀ l : List Char,
    (splitSep sep l).length = l.count sep + 1
  | [] => by simp [splitSep]
  | c :: rest => by
    have ih := splitSep_length sep rest
    simp only [splitSep]
    rcases h : splitSep sep rest with _ | ⟨part, parts⟩
    · exact absurd h (splitSep_ne_nil sep rest)
    · rw [h] at ih
      by_cases hc : c = sep
      · subst hc
        simp only [if_pos rfl, List.count_cons_self]
        simp at ih ⊢
        omega
      · have hne : sep ≠ c := fun e => hc e.symm
        simp only [if_neg hc, List.count_cons_of_ne hne]
        simp at ih ⊢
        omega

theorem splitSep_not_mem (sep : Char) : ∀ l : List Char, sep ∉ l → splitSep sep l = [l]
  | [], _ => rfl
  | c :: rest, h => by
    have ih := splitSep_not_mem sep rest (fun hm => h (List.mem_cons_of_mem _ hm))
    have hc : ¬ c = sep := fun e => h (e ▸ List.mem_cons_self _ _)
    simp only [splitSep, ih, if_neg hc]

theorem splitSep_append (sep : Char) : ∀ (xs ys : List Char), sep ∉ xs →
    splitSep sep (xs ++ sep :: ys) = xs :: splitSep sep ys
  | [], ys, _ => by
    simp only [List.nil_append, splitSep]
    rcases h : splitSep sep ys with _ | ⟨p, ps⟩
    · exact absurd h (splitSep_ne_nil sep ys)
    · simp
  | x :: xs, ys, h => by
    have ih := splitSep_append sep xs ys (fun hm => h (List.mem_cons_of_mem _ hm))
    have hx : ¬ x = sep := fun e => h (e ▸ List.mem_cons_self _ _)
    simp only [List.cons_append, splitSep, List.append_eq, ih, if_neg hx]

/-- C10: `ResourceId::parse` fails exactly on inputs with two or more
colons; one colon splits into namespace and path (either may be empty); no
colon gives an empty namespace and the whole input as path. -/
theorem resourceId_parse_characterization :
    (∀ s : String, (∃ e, ResourceId.parse s = .error e) ↔ 2 ≤ s.data.count ':') ∧
    (∀ a b : String, ':' ∉ a.data → ':' ∉ b.data →
      ResourceId.parse (a ++ ":" ++ b) = .ok { namespace_ := a, path := b }) ∧
    (∀ s : String, ':' ∉ s.data →
      ResourceId.parse s = .ok { namespace_ := "", path := s }) := by
  refine ⟨fun s => ?_, fun a b ha hb => ?_, fun s hs => ?_⟩
  · have hlen := splitSep_length ':' s.data
    constructor
    · rintro ⟨e, he⟩
      rcases h : splitSep ':' s.data with _ | ⟨x, l⟩
      · exact absurd h (splitSep_ne_nil ':' s.data)
      · rcases l with _ | ⟨y, l⟩
        · simp [ResourceId.parse, ResourceId.parse_with_default_namespace,
            strSplit, h] at he
        · rcases l with _ | ⟨z, l⟩
          · simp [ResourceId.parse, ResourceId.parse_with_default_namespace,
              strSplit, h] at he
          · rw [h] at hlen
            simp at hlen
            omega
    · intro hcount
      rcases h : splitSep ':' s.data with _ | ⟨x, l⟩
      · exact absurd h (splitSep_ne_nil ':' s.data)
      · rw [h] at hlen
        rcases l with _ | ⟨y, l⟩
        · simp at hlen; omega
        · rcases l with _ | ⟨z, l⟩
          · simp at hlen; omega
          · exact ⟨.InvalidResourceId s,
              by simp [ResourceId.parse, ResourceId.parse_with_default_namespace,
                strSplit, h]⟩
  · have hdata : (a ++ ":" ++ b).data = a.data ++ ':' :: b.data := by
      simp [String.data_append]
    have hsplit : splitSep ':' (a.data ++ ':' :: b.data) = [a.data, b.data] := by
      rw [splitSep_append ':' a.data b.data ha, splitSep_not_mem ':' b.data hb]
    simp only [ResourceId.parse, ResourceId.parse_with_default_namespace, strSplit,
      hdata, hsplit, List.map]
  · have hsplit := splitSep_not_mem ':' s.data hs
    simp [ResourceId.parse, ResourceId.parse_with_default_namespace, strSplit, hsplit]

/-- Witness for C10: concrete instances of the three parts. -/
theorem resourceId_parse_characterization_witness :
    ResourceId.parse ("minecraft" ++ ":" ++ "stone") =
      .ok { namespace_ := "minecraft", path := "stone" } ∧
    ResourceId.parse "stone" = .ok { namespace_ := "", path := "stone" } ∧
    (∃ e, ResourceId.parse "a:b:c" = .error e) :=
  ⟨resourceId_parse_characterization.2.1 "minecraft" "stone" (by decide) (by decide),
   resourceId_parse_characterization.2.2 "stone" (by decide),
   (resourceId_parse_characterization.1 "a:b:c").mpr (by decide)⟩

/-- C4: the lexer has no arm for a leading minus sign: a negative numeric
literal is not lexed as a single Number token — `next_token` reports
`UnexpectedCharacter` at the minus.  This contradicts the spec and the
crate's own tests (`lexer_negative_numbers_tests.rs` expects
`Token::Number(-80.0)` inside `@ -80..80`), so the claim marks a code bug;
this theorem evaluates the lexer at the failing inputs, plus a positive
control showing unsigned numerals do lex as single Number tokens. -/
theorem lexer_rejects_negative_number_literals :
    tokenize "@ -80..80" = some (.error (.UnexpectedCharacter '-' 1 3)) ∧
    tokenize "float @ -80..80" = some (.error (.UnexpectedCharacter '-' 1 9)) ∧
    tokenize "-1" = some (.error (.UnexpectedCharacter '-' 1 1)) ∧
    tokenize "80" = some (.ok
      [ { token := .Number 80, position := { line := 1, column := 1, offset := 0 } },
        { token := .Eof, position := { line := 1, column := 3, offset := 2 } } ]) := by
  refine ⟨rfl, rfl, rfl, rfl⟩

/-- C3 counterexample: with the current version set to `1.15`, the JSON
`[1,2,3,4]` still validates against `U = ( string | #[since="1.16"] [int] @ 4 | )`
— the `#[since]` branch is not gated out (the claim says it must fail). -/
theorem validator_version_gate_counterexample :
    validatorV115.current_version = some { major := 1, minor := 15, patch := 0 } ∧
    validate_json_against_structure validatorV115.resolver 32
      (.arr [.int 1, .int 2, .int 3, .int 4]) typeU [] "test" = some (.ok ()) := by
  refine ⟨rfl, ?_⟩
  simp [validate_json_against_structure, validateUnionGo, validate_simple_type,
    validateArrayElems, typeU, validatorV115, McDocValidator.new,
    McDocValidator.set_minecraft_version, MinecraftVersion.parse, ImportResolver.new,
    Json.is_string, Json.is_array, Json.as_array, Json.is_i64, json_type_name]

/-- C3 amended: the validator never reads the current version — validation
results are identical under any two versions — and both documents of the
scenario validate at version 1.15 as well as at 1.20. -/
theorem validator_ignores_version_attributes :
    (∀ (s : McDocValidator) (v₁ v₂ : Option MinecraftVersion) (fuel : Nat)
        (json : Json) (resource_id : String),
        McDocValidator.validate_json { s with current_version := v₁ } fuel json resource_id =
        McDocValidator.validate_json { s with current_version := v₂ } fuel json resource_id) ∧
    validate_json_against_structure validatorV115.resolver 32 (.str "x") typeU [] "test" =
      some (.ok ()) ∧
    validate_json_against_structure validatorV115.resolver 32
      (.arr [.int 1, .int 2, .int 3, .int 4]) typeU [] "test" = some (.ok ()) ∧
    validate_json_against_structure validatorV120.resolver 32 (.str "x") typeU [] "test" =
      some (.ok ()) ∧
    validate_json_against_structure validatorV120.resolver 32
      (.arr [.int 1, .int 2, .int 3, .int 4]) typeU [] "test" = some (.ok ()) := by
  refine ⟨fun s v₁ v₂ fuel json resource_id => rfl, ?_, ?_, ?_, ?_⟩ <;>
    simp [validate_json_against_structure, validateUnionGo, validate_simple_type,
      validateArrayElems, typeU, validatorV115, validatorV120, McDocValidator.new,
      McDocValidator.set_minecraft_version, MinecraftVersion.parse, ImportResolver.new,
      Json.is_string, Json.is_array, Json.as_array, Json.is_i64, json_type_name]

/-- Shared evaluation: the full `validate_json` run of the missing-field
scenario (schema `TestRecipe`, JSON `{"ingredient":"minecraft:stone"}`,
selector `test_recipe`). -/
theorem validate_testRecipe_missing_eval :
    McDocValidator.validate_json validatorC1 32 jsonMissingResult "test_recipe" =
      some resultMissingField := by
  simp [McDocValidator.validate_json, ResourceId.parse,
    ResourceId.parse_with_default_namespace, strSplit, splitSep,
    RegistryManager.scan_required_registries, RegistryManager.scan_json_recursive,
    RegistryManager.scanObjGo, RegistryManager.looks_like_resource_location,
    RegistryManager.infer_registry_type, strContains, listContainsSub,
    listStartsWith, strStartsWith, strContainsChar,
    McDocValidator.validate_json_structure, McDocValidator.parse_resource_identifier,
    ResourceId.toStr, ImportResolver.find_dispatch_target,
    ImportResolver.findDispatchGo, ImportResolver.findDispatchInDecls,
    ImportResolver.dispatch_matches, dispatchTargetsMatch,
    validate_json_against_structure, validateStructFields, validate_simple_type,
    Json.is_object, Json.as_object, Json.objGet, Json.is_string, alistGet?,
    json_type_name, validatorC1, fileTestRecipe, dispatchTestRecipe,
    ImportResolver.new, ImportResolver.add_module, ImportResolver.resolve_all,
    ImportResolver.build_dependency_graph, ImportResolver.buildGraphGo,
    ImportResolver.resolveImportsOf, ImportResolver.topological_sort, topoBuild,
    topoStepDeps, kahnLoop, processAdj, ImportResolver.resolveLoop,
    ImportResolver.resolve_module, alistInsert, alistHas, alistUpdate,
    RegistryManager.new, RegistryManager.has_registry,
    ValidationResult.add_error, ValidationResult.add_dependency,
    FieldDeclaration.name, FieldDeclaration.optional, FieldDeclaration.field_type,
    annotIdItem, joinSep, McDocParserError.toDisplayString,
    McDocParserError.error_type, McDocParserError.position, jsonMissingResult,
    msgRequiredResultMissing, errRequiredResultMissing, depMinecraftStone,
    resultMissingField]
  rfl

/-- C1 counterexample: on `{"ingredient":"minecraft:stone"}` with selector
`test_recipe`, the single error's message is the wrapped
`Required field 'result' is missing at path: ` text, not
`Missing required field 'result'`, and its `path` is `""`, not `"result"`. -/
theorem missing_field_error_text_counterexample :
    McDocValidator.validate_json validatorC1 32 jsonMissingResult "test_recipe" =
      some resultMissingField ∧
    resultMissingField.errors.map McDocError.message ≠
      ["Missing required field " ++ sQuote ++ "result" ++ sQuote] ∧
    resultMissingField.errors.map McDocError.path ≠ ["result"] :=
  ⟨validate_testRecipe_missing_eval, by decide, by decide⟩

/-- C1 amended: the run yields `is_valid = false` with exactly one error,
whose message is `Validation error at line 0, column 0: Required field
'result' is missing at path: ` and whose path is the empty string. -/
theorem missing_field_single_error :
    McDocValidator.validate_json validatorC1 32 jsonMissingResult "test_recipe" =
      some resultMissingField ∧
    resultMissingField.is_valid = false ∧
    resultMissingField.errors = [errRequiredResultMissing] ∧
    errRequiredResultMissing.message = msgRequiredResultMissing ∧
    errRequiredResultMissing.path = "" :=
  ⟨validate_testRecipe_missing_eval, rfl, rfl, rfl, rfl⟩

/-- C5 counterexample: the absolute import `::a::b::C` resolves to the
module path `a/b/C` — the last segment is part of the module path — not to
`a/b`. -/
theorem resolve_import_path_counterexample :
    ImportResolver.new.resolve_import_path "x/y" (.Absolute ["a", "b", "C"]) =
      .ok "a/b/C" ∧
    "a/b/C" ≠ "a/b" :=
  ⟨rfl, by decide⟩

/-- C5 amended: `resolve_import_path` joins all segments of an absolute
module import with `/` (the final referenced name included); a relative
(`super::…`) import joins the current module's parent segments with all
of the import's segments. -/
theorem resolve_import_path_amended :
    (∀ (r : ImportResolver) (current : String) (segments : List String),
      r.resolve_import_path current (.Absolute segments) =
        .ok (joinSep "/" segments)) ∧
    (∀ (r : ImportResolver) (current : String) (segments : List String),
      r.resolve_import_path current (.Relative segments) =
        .ok (joinSep "/" ((strSplit current '/').dropLast ++ segments))) := by
  refine ⟨fun r current segments => rfl, fun r current segments => ?_⟩
  have hne : ¬ (strSplit current '/').isEmpty := by
    simp only [strSplit, List.isEmpty_iff, List.map_eq_nil_iff]
    exact splitSep_ne_nil '/' current.data
  simp only [ImportResolver.resolve_import_path]
  rw [if_neg hne]

theorem alistGet?_update_self {α : Type} (l : List (String × α)) (k : String)
    (f : α → α) : alistGet? (alistUpdate l k f) k = (alistGet? l k).map f := by
  induction l with
  | nil => simp [alistUpdate, alistGet?]
  | cons p rest ih =>
    obtain ⟨k0, v0⟩ := p
    by_cases hk : k0 = k
    · simp [alistUpdate, alistGet?, hk]
    · simp [alistUpdate, alistGet?, hk, ih]

theorem alistGet?_update_ne {α : Type} (l : List (String × α)) (k k' : String)
    (f : α → α) (h : k' ≠ k) :
    alistGet? (alistUpdate l k f) k' = alistGet? l k' := by
  induction l with
  | nil => simp [alistUpdate]
  | cons p rest ih =>
    obtain ⟨k0, v0⟩ := p
    by_cases hk : k0 = k
    · subst hk
      have : ¬ k0 = k' := fun e => h e.symm
      simp [alistUpdate, alistGet?, this]
    · by_cases he : k0 = k'
      · subst he
        simp [alistUpdate, alistGet?, if_neg hk]
      · simp [alistUpdate, alistGet?, hk, he, ih]

theorem alistGet?_append {α : Type} (l l' : List (String × α)) (k : String) :
    alistGet? (l ++ l') k =
      match alistGet? l k with
      | some v => some v
      | none => alistGet? l' k := by
  induction l with
  | nil => simp [alistGet?]
  | cons p rest ih =>
    obtain ⟨k0, v0⟩ := p
    by_cases hk : k0 = k
    · simp [alistGet?, hk]
    · simp [alistGet?, hk, ih]

theorem alistGet?_insert_self {α : Type} (l : List (String × α)) (k : String) (v : α) :
    alistGet? (alistInsert l k v) k = some v := by
  unfold alistInsert
  by_cases h : alistHas l k
  · rw [if_pos h, alistGet?_update_self]
    unfold alistHas at h
    cases hg : alistGet? l k with
    | none => rw [hg] at h; simp at h
    | some v0 => simp
  · rw [if_neg h, alistGet?_append]
    unfold alistHas at h
    cases hg : alistGet? l k with
    | none => simp [alistGet?]
    | some v0 => rw [hg] at h; simp at h

theorem alistGet?_insert_ne {α : Type} (l : List (String × α)) (k k' : String) (v : α)
    (h : k' ≠ k) : alistGet? (alistInsert l k v) k' = alistGet? l k' := by
  unfold alistInsert
  by_cases hh : alistHas l k
  · rw [if_pos hh, alistGet?_update_ne _ _ _ _ h]
  · rw [if_neg hh, alistGet?_append]
    cases hg : alistGet? l k' with
    | none =>
      have hne : ¬ k = k' := fun e => h e.symm
      simp [alistGet?, hne]
    | some v0 => simp

theorem alistGet?_eq_none_of_not_mem {α : Type} (l : List (String × α)) (k : String)
    (h : k ∉ l.map Prod.fst) : alistGet? l k = none := by
  induction l with
  | nil => rfl
  | cons p rest ih =>
    obtain ⟨k0, v0⟩ := p
    simp only [List.map_cons, List.mem_cons] at h
    push_neg at h
    have hk : ¬ k0 = k := fun e => h.1 e.symm
    simp only [alistGet?, if_neg hk]
    exact ih h.2

theorem mem_add_entry (r : Registry) (e x : String) :
    x ∈ (r.add_entry e).entries ↔ x ∈ r.entries ∨ x = e := by
  unfold Registry.add_entry
  by_cases h : r.entries.contains e
  · rw [if_pos h]
    have he : e ∈ r.entries := List.mem_of_elem_eq_true h
    constructor
    · exact Or.inl
    · rintro (hx | rfl)
      · exact hx
      · exact he
  · rw [if_neg h]
    simp [List.mem_append]

theorem entriesFold_spec : ∀ (fields : List (String × Json)) (r0 : Registry),
    ((fields.foldl (fun (r : Registry) kv => r.add_entry kv.fst) r0).name = r0.name) ∧
    ((fields.foldl (fun (r : Registry) kv => r.add_entry kv.fst) r0).version = r0.version) ∧
    ((fields.foldl (fun (r : Registry) kv => r.add_entry kv.fst) r0).tags = r0.tags) ∧
    (∀ x, x ∈ (fields.foldl (fun (r : Registry) kv => r.add_entry kv.fst) r0).entries ↔
      x ∈ r0.entries ∨ x ∈ fields.map Prod.fst)
  | [], r0 => by simp
  | kv :: rest, r0 => by
    have ih := entriesFold_spec rest (r0.add_entry kv.fst)
    have hname : (r0.add_entry kv.fst).name = r0.name := by
      unfold Registry.add_entry; split <;> rfl
    have hver : (r0.add_entry kv.fst).version = r0.version := by
      unfold Registry.add_entry; split <;> rfl
    have htags : (r0.add_entry kv.fst).tags = r0.tags := by
      unfold Registry.add_entry; split <;> rfl
    simp only [List.foldl_cons]
    refine ⟨ih.1.trans hname, ih.2.1.trans hver, ih.2.2.1.trans htags, fun x => ?_⟩
    rw [ih.2.2.2 x, mem_add_entry]
    simp [or_assoc, or_comm, or_left_comm]

theorem add_tag_fields (r : Registry) (t : String) (es : List String) :
    (r.add_tag t es).name = r.name ∧ (r.add_tag t es).version = r.version ∧
    (r.add_tag t es).entries = r.entries ∧
    (r.add_tag t es).tags = alistInsert r.tags t es :=
  ⟨rfl, rfl, rfl, rfl⟩

theorem tagsFold_spec : ∀ (fields : List (String × Json)) (r0 : Registry),
    ((fields.foldl (fun (r : Registry) kv =>
        match kv.snd.as_array with
        | some entries_array => r.add_tag kv.fst (entries_array.filterMap Json.as_str)
        | none => r) r0).name = r0.name) ∧
    ((fields.foldl (fun (r : Registry) kv =>
        match kv.snd.as_array with
        | some entries_array => r.add_tag kv.fst (entries_array.filterMap Json.as_str)
        | none => r) r0).version = r0.version) ∧
    ((fields.foldl (fun (r : Registry) kv =>
        match kv.snd.as_array with
        | some entries_array => r.add_tag kv.fst (entries_array.filterMap Json.as_str)
        | none => r) r0).entries = r0.entries) ∧
    ((fields.map Prod.fst).Nodup → ∀ tag,
      alistGet? ((fields.foldl (fun (r : Registry) kv =>
        match kv.snd.as_array with
        | some entries_array => r.add_tag kv.fst (entries_array.filterMap Json.as_str)
        | none => r) r0).tags) tag =
      match (alistGet? fields tag).bind Json.as_array with
      | some arr => some (arr.filterMap Json.as_str)
      | none => alistGet? r0.tags tag)
  | [], r0 => by simp [alistGet?]
  | (k, v) :: rest, r0 => by
    set r1 : Registry :=
      match v.as_array with
      | some entries_array => r0.add_tag k (entries_array.filterMap Json.as_str)
      | none => r0 with hr1
    have ih := tagsFold_spec rest r1
    have hfields : r1.name = r0.name ∧ r1.version = r0.version ∧
        r1.entries = r0.entries := by
      rw [hr1]
      cases v.as_array <;> exact ⟨rfl, rfl, rfl⟩
    refine ⟨ih.1.trans hfields.1, ih.2.1.trans hfields.2.1,
            ih.2.2.1.trans hfields.2.2, fun hnd tag => ?_⟩
    have hnd' : (rest.map Prod.fst).Nodup := (List.nodup_cons.mp hnd).2
    have hknotin : k ∉ rest.map Prod.fst := (List.nodup_cons.mp hnd).1
    have ihtag := ih.2.2.2 hnd' tag
    simp only [List.foldl_cons]
    rw [← hr1]
    by_cases htag : tag = k
    · subst htag
      have hrest : alistGet? rest tag = none := alistGet?_eq_none_of_not_mem _ _ hknotin
      rw [ihtag, hrest]
      cases hv : v.as_array with
      | some arr =>
        rw [hr1]
        simp [hv, Registry.add_tag, alistGet?_insert_self, alistGet?]
      | none =>
        rw [hr1]
        simp [hv, alistGet?]
    · have hcons : alistGet? ((k, v) :: rest) tag = alistGet? rest tag := by
        simp only [alistGet?, if_neg (fun e : k = tag => htag e.symm)]
      rw [ihtag, hcons]
      have hr1tags : alistGet? r1.tags tag = alistGet? r0.tags tag := by
        rw [hr1]
        cases hv : v.as_array with
        | some arr =>
          simp only [Registry.add_tag]
          exact alistGet?_insert_ne _ _ _ _ htag
        | none => rfl
      cases hg : alistGet? rest tag with
      | some w => simp [hr1tags]
      | none => simp [hr1tags]

/-- C8 counterexample: loading a plain array of id strings succeeds but the
resulting registry has no entries at all — the array shape is ignored by
`Registry::from_json` (only the `entries`/`tags` object shape is read). -/
theorem registry_array_shape_counterexample :
    Registry.from_json "item" "1.0"
        (.arr [.str "minecraft:stone", .str "minecraft:dirt"]) =
      .ok { name := "item", entries := [], tags := [], version := "1.0" } ∧
    ([] : List String) ≠ ["minecraft:stone", "minecraft:dirt"] :=
  ⟨rfl, by decide⟩

/-- C8 amended: `Registry::from_json` accepts any JSON shape without error;
a plain array produces an empty registry (no entries, no tags), while the
`entries`/`tags` object shape produces exactly the listed entry keys and,
for duplicate-free tag keys, exactly the string-array tags. -/
theorem registry_from_json_shapes :
    (∀ (name version : String) (elems : List Json),
      Registry.from_json name version (.arr elems) =
        .ok (Registry.new name version)) ∧
    (∀ (name version : String) (entriesFields tagsFields : List (String × Json))
        (r : Registry),
      Registry.from_json name version
          (.obj [("entries", .obj entriesFields), ("tags", .obj tagsFields)]) =
        .ok r →
      r.name = name ∧ r.version = version ∧
      (∀ k, k ∈ r.entries ↔ k ∈ entriesFields.map Prod.fst) ∧
      ((tagsFields.map Prod.fst).Nodup → ∀ tag,
        alistGet? r.tags tag =
          match (alistGet? tagsFields tag).bind Json.as_array with
          | some arr => some (arr.filterMap Json.as_str)
          | none => none)) := by
  constructor
  · intro name version elems
    rfl
  · intro name version entriesFields tagsFields r h
    have h' : (tagsFields.foldl (fun (r : Registry) kv =>
        match kv.snd.as_array with
        | some entries_array => r.add_tag kv.fst (entries_array.filterMap Json.as_str)
        | none => r)
        (entriesFields.foldl (fun (r : Registry) kv => r.add_entry kv.fst)
          (Registry.new name version))) = r := by
      have := h
      simp only [Registry.from_json, Json.objGet, alistGet?, Json.as_object,
        Option.bind] at this
      exact Except.ok.inj this
    subst h'
    have hE := entriesFold_spec entriesFields (Registry.new name version)
    have hT := tagsFold_spec tagsFields
      (entriesFields.foldl (fun (r : Registry) kv => r.add_entry kv.fst)
        (Registry.new name version))
    refine ⟨hT.1.trans hE.1, hT.2.1.trans hE.2.1, fun k => ?_, fun hnd tag => ?_⟩
    · rw [hT.2.2.1, hE.2.2.2 k]
      simp [Registry.new]
    · rw [hT.2.2.2 hnd tag, hE.2.2.1]
      cases (alistGet? tagsFields tag).bind Json.as_array with
      | some arr => rfl
      | none => simp [Registry.new, alistGet?]

/-- Witness for C8: the object shape of `registry_tests.rs`-style data,
with the nodup hypothesis discharged concretely. -/
theorem registry_from_json_shapes_witness :
    ("minecraft:stone" ∈ registryObjExample.entries ↔
      "minecraft:stone" ∈
        [("minecraft:stone", Json.obj []), ("minecraft:diamond", Json.obj [])].map
          Prod.fst) ∧
    alistGet? registryObjExample.tags "minecraft:swords" =
      some ["minecraft:diamond_sword"] := by
  have h := registry_from_json_shapes.2 "item" "1.0"
    [("minecraft:stone", Json.obj []), ("minecraft:diamond", Json.obj [])]
    [("minecraft:swords", Json.arr [Json.str "minecraft:diamond_sword"])]
    registryObjExample rfl
  refine ⟨h.2.2.1 "minecraft:stone", ?_⟩
  set_option linter.unnecessarySimpa false in
  have hs := h.2.2.2 (by decide) "minecraft:swords"
  simpa [alistGet?, Json.as_array, Json.as_str] using hs

/-- C2 counterexample: when every branch fails, the single union error's
message is `Value does not match any variant in union type at path: …`, not
`JSON does not match any of the expected types`. -/
theorem union_error_message_counterexample :
    validate_json_against_structure ImportResolver.new 5 (.bool true)
        (.Union [.Simple "string"]) [] "w" =
      some (.error [.ValidationError
        "Value does not match any variant in union type at path: " 0 0]) ∧
    "Value does not match any variant in union type at path: " ≠
      "JSON does not match any of the expected types" := by
  refine ⟨?_, by decide⟩
  simp [validate_json_against_structure, validateUnionGo, validate_simple_type,
    Json.is_string, json_type_name, joinSep]

/-- C2 amended: for a union whose branch validations all terminate, the
union succeeds exactly when some branch succeeds (the first success wins and
short-circuits), and when every branch fails exactly one error is emitted,
whose message is `Value does not match any variant in union type at path: p`. -/
theorem union_first_success_single_error :
    ∀ (resolver : ImportResolver) (fuel : Nat) (json : Json)
      (ts : List TypeExpression) (path : List String) (ctx : String),
      (∀ t ∈ ts, (validate_json_against_structure resolver fuel json t path ctx).isSome) →
      ((validate_json_against_structure resolver (fuel + 1) json (.Union ts) path ctx =
          some (.ok ()) ↔
        ∃ t ∈ ts, validate_json_against_structure resolver fuel json t path ctx =
          some (.ok ())) ∧
       ((∀ t ∈ ts, ∃ es, validate_json_against_structure resolver fuel json t path ctx =
            some (.error es)) →
        validate_json_against_structure resolver (fuel + 1) json (.Union ts) path ctx =
          some (.error [.ValidationError
            ("Value does not match any variant in union type at path: " ++
             joinSep "." path) 0 0]))) := by
  intro resolver fuel json ts path ctx hterm
  have hunfold : validate_json_against_structure resolver (fuel + 1) json (.Union ts)
      path ctx = validateUnionGo resolver fuel json ts path ctx := by
    simp [validate_json_against_structure]
  rw [hunfold]
  clear hunfold
  induction ts with
  | nil =>
    constructor
    · constructor
      · intro h
        simp [validateUnionGo] at h
      · rintro ⟨t, ht, _⟩
        simp at ht
    · intro _
      simp [validateUnionGo]
  | cons t rest ih =>
    have htermt := hterm t (by simp)
    have htermrest : ∀ t' ∈ rest,
        (validate_json_against_structure resolver fuel json t' path ctx).isSome :=
      fun t' ht' => hterm t' (by simp [ht'])
    have ih' := ih htermrest
    cases hv : validate_json_against_structure resolver fuel json t path ctx with
    | none => rw [hv] at htermt; simp at htermt
    | some res =>
      cases res with
      | ok u =>
        constructor
        · constructor
          · intro _
            exact ⟨t, by simp, by rw [hv]⟩
          · intro _
            simp [validateUnionGo, hv]
        · intro hall
          obtain ⟨es, hes⟩ := hall t (by simp)
          rw [hv] at hes
          cases hes
      | error es =>
        have hstep : validateUnionGo resolver fuel json (t :: rest) path ctx =
            validateUnionGo resolver fuel json rest path ctx := by
          simp [validateUnionGo, hv]
        rw [hstep]
        constructor
        · rw [ih'.1]
          constructor
          · rintro ⟨t', ht', hok⟩
            exact ⟨t', by simp [ht'], hok⟩
          · rintro ⟨t', ht', hok⟩
            rcases List.mem_cons.mp ht' with rfl | hmem
            · rw [hv] at hok
              cases hok
            · exact ⟨t', hmem, hok⟩
        · intro hall
          exact ih'.2 (fun t' ht' => hall t' (by simp [ht']))

/-- Witness for C2: a two-branch union where the second branch succeeds. -/
theorem union_first_success_single_error_witness :
    validate_json_against_structure ImportResolver.new 5 (.str "x")
        (.Union [.Simple "int", .Simple "string"]) [] "w" = some (.ok ()) := by
  have h := union_first_success_single_error ImportResolver.new 4 (.str "x")
    [.Simple "int", .Simple "string"] [] "w"
    (by
      intro t ht
      fin_cases ht <;>
        simp [validate_json_against_structure, validate_simple_type,
          Json.is_string, Json.is_i64, json_type_name])
  exact h.1.mpr ⟨.Simple "string", by simp,
    by simp [validate_json_against_structure, validate_simple_type, Json.is_string]⟩

theorem resultInv_add_error (r : ValidationResult) (e : McDocError) :
    ResultInv (r.add_error e) := by
  unfold ResultInv ValidationResult.add_error
  simp

theorem resultInv_add_dependency (r : ValidationResult) (d : McDocDependency)
    (h : ResultInv r) : ResultInv (r.add_dependency d) := h

theorem resultInv_foldl {α : Type} (f : ValidationResult → α → ValidationResult)
    (hf : ∀ r x, ResultInv r → ResultInv (f r x)) :
    ∀ (l : List α) (r0 : ValidationResult), ResultInv r0 → ResultInv (l.foldl f r0)
  | [], _, h => h
  | x :: rest, r0, h => resultInv_foldl f hf rest (f r0 x) (hf r0 x h)

/-- C9: every result `validate_json` returns satisfies `is_valid = true`
iff its error list is empty (the run starts valid and empty, `add_error`
appends and invalidates, `add_dependency` touches neither). -/
theorem validate_json_is_valid_iff_no_errors :
    ∀ (s : McDocValidator) (fuel : Nat) (json : Json) (resource_id : String)
      (r : ValidationResult),
      McDocValidator.validate_json s fuel json resource_id = some r →
      (r.is_valid = true ↔ r.errors = []) := by
  intro s fuel json resource_id r h
  have hinit : ResultInv { is_valid := true, errors := [], dependencies := [] } := by
    unfold ResultInv; simp
  unfold McDocValidator.validate_json at h
  split at h
  · -- resource id parse error: the single add_error result
    rw [Option.some.injEq] at h
    subst h
    exact resultInv_add_error _ _
  · -- parsed: dependency fold, then structure errors fold, then registry fold
    have h1 : ResultInv ((s.registry_manager.scan_required_registries json).foldl
        (fun r dep => r.add_dependency
          { resource_location := dep.identifier, registry_type := dep.registry,
            source_path := "auto-detected", source_file := some resource_id,
            is_tag := dep.is_tag })
        { is_valid := true, errors := [], dependencies := [] }) :=
      resultInv_foldl _ (fun r x hr => resultInv_add_dependency r _ hr) _ _ hinit
    split at h
    · exact absurd h (by simp)
    · rename_i structOutcome heq
      rw [Option.some.injEq] at h
      subst h
      refine resultInv_foldl _ (fun r x hr => ?_) _ _ ?_
      · dsimp only
        split
        · split
          · exact resultInv_add_error r _
          · exact resultInv_add_error r _
          · exact hr
        · exact hr
      · cases structOutcome with
        | ok u => exact h1
        | error es =>
          exact resultInv_foldl _ (fun r x hr => resultInv_add_error r _) _ _ h1

/-- Witness for C9: the missing-field scenario result. -/
theorem validate_json_is_valid_iff_no_errors_witness :
    resultMissingField.is_valid = true ↔ resultMissingField.errors = [] :=
  validate_json_is_valid_iff_no_errors validatorC1 32 jsonMissingResult "test_recipe"
    resultMissingField validate_testRecipe_missing_eval

theorem topoStepDeps_ok (modules : List (String × McDocFile)) (module : String) :
    ∀ (deps : List String) (st : List (String × Nat) × List (String × List String)),
      (∀ d ∈ deps, alistHas modules d) →
      ∃ st', topoStepDeps modules module deps st = .ok st'
  | [], st, _ => ⟨st, rfl⟩
  | d :: rest, st, h => by
    have hd := h d (by simp)
    obtain ⟨st', hst'⟩ := topoStepDeps_ok modules module rest
      (alistUpdate st.1 module (· + 1), alistUpdate st.2 d (· ++ [module]))
      (fun d' hd' => h d' (by simp [hd']))
    refine ⟨st', ?_⟩
    obtain ⟨ind, adj⟩ := st
    simpa [topoStepDeps, hd] using hst'

theorem topoStepDeps_missing (modules : List (String × McDocFile)) (module : String) :
    ∀ (deps : List String) (st : List (String × Nat) × List (String × List String)),
      (∃ d ∈ deps, ¬ alistHas modules d) →
      ∃ d, topoStepDeps modules module deps st = .error (.ModuleNotFound d module) ∧
        d ∈ deps ∧ ¬ alistHas modules d
  | [], _, h => by simp at h
  | d :: rest, st, h => by
    obtain ⟨ind, adj⟩ := st
    by_cases hd : alistHas modules d
    · have h' : ∃ d' ∈ rest, ¬ alistHas modules d' := by
        rcases h with ⟨d', hd', hmiss⟩
        rcases List.mem_cons.mp hd' with rfl | hmem
        · exact absurd hd hmiss
        · exact ⟨d', hmem, hmiss⟩
      obtain ⟨d', hstep, hmem, hmiss⟩ := topoStepDeps_missing modules module rest
        (alistUpdate ind module (· + 1), alistUpdate adj d (· ++ [module])) h'
      exact ⟨d', by simpa [topoStepDeps, hd] using hstep, by simp [hmem], hmiss⟩
    · exact ⟨d, by simp [topoStepDeps, hd], by simp, hd⟩

theorem topoBuild_missing (modules : List (String × McDocFile)) :
    ∀ (graph : List (String × List String))
      (st : List (String × Nat) × List (String × List String)),
      (∃ m deps, (m, deps) ∈ graph ∧ ∃ d ∈ deps, ¬ alistHas modules d) →
      ∃ m d deps, topoBuild modules graph st = .error (.ModuleNotFound d m) ∧
        (m, deps) ∈ graph ∧ d ∈ deps ∧ ¬ alistHas modules d
  | [], _, h => by simp at h
  | (m0, deps0) :: rest, st, h => by
    by_cases h0 : ∃ d ∈ deps0, ¬ alistHas modules d
    · obtain ⟨d, hstep, hmem, hmiss⟩ := topoStepDeps_missing modules m0 deps0 st h0
      exact ⟨m0, d, deps0, by simp [topoBuild, hstep], by simp, hmem, hmiss⟩
    · have hall : ∀ d ∈ deps0, alistHas modules d := by
        intro d hd
        by_contra hmiss
        exact h0 ⟨d, hd, hmiss⟩
      obtain ⟨st', hst'⟩ := topoStepDeps_ok modules m0 deps0 st hall
      have h' : ∃ m deps, (m, deps) ∈ rest ∧ ∃ d ∈ deps, ¬ alistHas modules d := by
        rcases h with ⟨m, deps, hmem, hd⟩
        rcases List.mem_cons.mp hmem with heq | hmem'
        · cases heq
          exact absurd hd h0
        · exact ⟨m, deps, hmem', hd⟩
      obtain ⟨m, d, deps, hbuild, hmem, hdmem, hmiss⟩ :=
        topoBuild_missing modules rest st' h'
      exact ⟨m, d, deps, by simp [topoBuild, hst', hbuild], by simp [hmem], hdmem, hmiss⟩

/-- C6 counterexample: with module `a` importing a never-added module and a
self-contained module `b`, `resolve_all` fails with the expected
`ModuleNotFound` but resolves nothing at all — `b` (which imports nothing)
is not resolved either, contradicting that other modules still resolve. -/
theorem resolve_all_missing_module_counterexample :
    resolverMissingDep.resolve_all =
      (.error (.ModuleNotFound "missing" "a"), resolverMissingDep) ∧
    alistHas resolverMissingDep.modules "b" = true ∧
    alistGet? resolverMissingDep.resolved "b" = none := by
  refine ⟨rfl, rfl, rfl⟩

/-- C6 amended: when some added module imports a module that was never
added, `resolve_all` fails with `ModuleNotFound` carrying such a missing
path and its importer, and resolution aborts entirely: the resolver state —
in particular its `resolved` map and `resolution_order` — is left exactly as
it was, so no module at all (importer or not) gets resolved by the call. -/
theorem resolve_all_missing_module_aborts :
    ∀ (r : ImportResolver) (graph : List (String × List String)),
      r.build_dependency_graph = .ok graph →
      (∃ m deps, (m, deps) ∈ graph ∧ ∃ d ∈ deps, ¬ alistHas r.modules d) →
      (∃ m d deps, r.resolve_all = (.error (.ModuleNotFound d m), r) ∧
        (m, deps) ∈ graph ∧ d ∈ deps ∧ ¬ alistHas r.modules d) := by
  intro r graph hgraph hmiss
  obtain ⟨m, d, deps, hbuild, hmem, hdmem, hdmiss⟩ :=
    topoBuild_missing r.modules graph
      (graph.map (fun p => (p.fst, (0 : Nat))),
       graph.map (fun p => (p.fst, ([] : List String)))) hmiss
  refine ⟨m, d, deps, ?_, hmem, hdmem, hdmiss⟩
  unfold ImportResolver.resolve_all ImportResolver.topological_sort
  rw [hgraph]
  simp [hbuild]

/-- Witness for C6: the hypotheses discharged on the concrete
missing-dependency resolver. -/
theorem resolve_all_missing_module_aborts_witness :
    ∃ m d deps,
      resolverMissingDep.resolve_all = (.error (.ModuleNotFound d m), resolverMissingDep) ∧
      (m, deps) ∈ [("a", ["missing"]), ("b", ([] : List String))] ∧
      d ∈ deps ∧ ¬ alistHas resolverMissingDep.modules d :=
  resolve_all_missing_module_aborts resolverMissingDep
    [("a", ["missing"]), ("b", [])] rfl
    ⟨"a", ["missing"], by simp, "missing", by simp, by decide⟩

theorem alistGet?_isSome_iff_mem {α : Type} (l : List (String × α)) (k : String) :
    (alistGet? l k).isSome ↔ k ∈ l.map Prod.fst := by
  induction l with
  | nil => simp [alistGet?]
  | cons p rest ih =>
    obtain ⟨k0, v0⟩ := p
    by_cases hk : k0 = k
    · simp [alistGet?, hk]
    · simp only [alistGet?, if_neg hk, ih, List.map_cons, List.mem_cons]
      have hne : ¬ k = k0 := fun e => hk e.symm
      simp [hne]

theorem mem_keys_of_alistGet?_eq_some {α : Type} {l : List (String × α)} {k : String}
    {v : α} (h : alistGet? l k = some v) : k ∈ l.map Prod.fst := by
  rw [← alistGet?_isSome_iff_mem, h]
  rfl

theorem alistGet?_eq_some_of_mem_nodup {α : Type} {l : List (String × α)} {k : String}
    {v : α} (hnd : (l.map Prod.fst).Nodup) (h : (k, v) ∈ l) :
    alistGet? l k = some v := by
  induction l with
  | nil => simp at h
  | cons p rest ih =>
    obtain ⟨k0, v0⟩ := p
    simp only [List.map_cons, List.nodup_cons] at hnd
    rcases List.mem_cons.mp h with heq | hmem
    · cases heq
      simp [alistGet?]
    · have hk : ¬ k0 = k := by
        rintro rfl
        exact hnd.1 (List.mem_map.mpr ⟨(k0, v), hmem, rfl⟩)
      simp only [alistGet?, if_neg hk]
      exact ih hnd.2 hmem

theorem map_fst_alistUpdate {α : Type} (l : List (String × α)) (k : String)
    (f : α → α) : (alistUpdate l k f).map Prod.fst = l.map Prod.fst := by
  induction l with
  | nil => rfl
  | cons p rest ih =>
    obtain ⟨k0, v0⟩ := p
    by_cases hk : k0 = k
    · simp [alistUpdate, hk]
    · simp [alistUpdate, hk, ih]

theorem alistGet?_map_const {α : Type} (gs : List (String × α)) {β : Type}
    (x0 : β) (k : String) :
    alistGet? (gs.map (fun p => (p.fst, x0))) k =
      if k ∈ gs.map Prod.fst then some x0 else none := by
  induction gs with
  | nil => simp [alistGet?]
  | cons p rest ih =>
    obtain ⟨k0, v0⟩ := p
    by_cases hk : k0 = k
    · subst hk
      simp only [List.map_cons, alistGet?, if_pos rfl, List.mem_cons, true_or,
        if_true]
    · have hne : ¬ k = k0 := fun e => hk e.symm
      simp only [List.map_cons, alistGet?, if_neg hk, ih, List.mem_cons]
      by_cases hmem : k ∈ rest.map Prod.fst <;> simp [hmem, hne]

theorem filter_key_nodup {α : Type} {graph : List (String × α)} {m : String}
    {deps : α} (hnd : (graph.map Prod.fst).Nodup)
    (h : alistGet? graph m = some deps) :
    graph.filter (fun p => p.fst = m) = [(m, deps)] := by
  induction graph with
  | nil => simp [alistGet?] at h
  | cons p rest ih =>
    obtain ⟨k0, v0⟩ := p
    simp only [List.map_cons, List.nodup_cons] at hnd
    by_cases hk : k0 = m
    · subst hk
      simp only [alistGet?] at h
      simp only [if_true] at h
      injection h with h
      subst h
      have hnone : rest.filter (fun p => p.fst = k0) = [] := by
        apply List.filter_eq_nil_iff.mpr
        intro p hp hcontra
        simp only [decide_eq_true_eq] at hcontra
        exact hnd.1 (List.mem_map.mpr ⟨p, hp, hcontra⟩)
      simp [List.filter_cons, hnone]
    · simp only [alistGet?, if_neg hk] at h
      simp [List.filter_cons, hk, ih hnd.2 h]

theorem alistGet?_eq_none_iff_not_mem {α : Type} (l : List (String × α)) (k : String) :
    alistGet? l k = none ↔ k ∉ l.map Prod.fst := by
  rw [← alistGet?_isSome_iff_mem]
  cases alistGet? l k <;> simp

theorem topoStepDeps_ok_spec (modules : List (String × McDocFile)) (module : String) :
    ∀ (deps : List String) (st st' : List (String × Nat) × List (String × List String)),
      topoStepDeps modules module deps st = .ok st' →
      (st'.1.map Prod.fst = st.1.map Prod.fst ∧
       st'.2.map Prod.fst = st.2.map Prod.fst ∧
       (∀ d ∈ deps, alistHas modules d) ∧
       (∀ m, alistGet? st'.1 m =
         if m = module then (alistGet? st.1 m).map (· + deps.length)
         else alistGet? st.1 m) ∧
       (∀ d, alistGet? st'.2 d =
         (alistGet? st.2 d).map (· ++ List.replicate (deps.count d) module)))
  | [], st, st', h => by
    cases h
    refine ⟨rfl, rfl, by simp, fun m => ?_, fun d => ?_⟩
    · cases alistGet? st.1 m <;> simp
    · cases alistGet? st.2 d <;> simp
  | d :: rest, st, st', h => by
    obtain ⟨ind, adj⟩ := st
    by_cases hd : alistHas modules d
    · simp only [topoStepDeps, if_pos hd] at h
      have ih := topoStepDeps_ok_spec modules module rest
        (alistUpdate ind module (· + 1), alistUpdate adj d (· ++ [module])) st' h
      refine ⟨ih.1.trans (map_fst_alistUpdate _ _ _),
              ih.2.1.trans (map_fst_alistUpdate _ _ _),
              ?_, fun m => ?_, fun d0 => ?_⟩
      · intro d' hd'
        rcases List.mem_cons.mp hd' with rfl | hmem
        · exact hd
        · exact ih.2.2.1 d' hmem
      · rw [ih.2.2.2.1 m]
        by_cases hm : m = module
        · subst hm
          rw [if_pos rfl, if_pos rfl, alistGet?_update_self]
          cases alistGet? ind m <;> simp <;> omega
        · rw [if_neg hm, if_neg hm, alistGet?_update_ne _ _ _ _ hm]
      · rw [ih.2.2.2.2 d0]
        by_cases hd0 : d0 = d
        · subst hd0
          rw [alistGet?_update_self]
          cases alistGet? adj d0 with
          | none => simp
          | some l =>
            simp only [Option.map_some, List.count_cons_self, List.replicate]
            simp [List.append_assoc, List.count_cons, List.replicate_succ]
        · rw [alistGet?_update_ne _ _ _ _ hd0]
          have hne : ¬ d = d0 := fun e => hd0 e.symm
          have : (d :: rest).count d0 = rest.count d0 := by
            rw [List.count_cons]
            simp [hne, fun e : d0 = d => hd0 e]
          rw [this]
    · simp only [topoStepDeps, if_neg hd] at h
      cases h

theorem topoBuild_ok_spec (modules : List (String × McDocFile)) :
    ∀ (gs : List (String × List String))
      (st st' : List (String × Nat) × List (String × List String)),
      topoBuild modules gs st = .ok st' →
      (∀ k, alistHas modules k → (alistGet? st.2 k).isSome) →
      (st'.1.map Prod.fst = st.1.map Prod.fst ∧
       st'.2.map Prod.fst = st.2.map Prod.fst ∧
       (∀ m, alistGet? st'.1 m = (alistGet? st.1 m).map
         (· + ((gs.filter (fun p => p.fst = m)).map (fun p => p.snd.length)).sum)) ∧
       (∀ d m', ((alistGet? st'.2 d).getD []).count m' =
         ((alistGet? st.2 d).getD []).count m' +
         ((gs.filter (fun p => p.fst = m')).map (fun p => p.snd.count d)).sum))
  | [], st, st', h, _ => by
    cases h
    refine ⟨rfl, rfl, fun m => ?_, fun d m' => ?_⟩
    · cases alistGet? st.1 m <;> simp
    · simp
  | (m0, ds0) :: rest, st, st', h, hcov => by
    simp only [topoBuild] at h
    cases hstep : topoStepDeps modules m0 ds0 st with
    | error e => rw [hstep] at h; cases h
    | ok st1 =>
      rw [hstep] at h
      have hs := topoStepDeps_ok_spec modules m0 ds0 st st1 hstep
      have hcov1 : ∀ k, alistHas modules k → (alistGet? st1.2 k).isSome := by
        intro k hk
        rw [alistGet?_isSome_iff_mem, hs.2.1, ← alistGet?_isSome_iff_mem]
        exact hcov k hk
      have ih := topoBuild_ok_spec modules rest st1 st' h hcov1
      refine ⟨ih.1.trans hs.1, ih.2.1.trans hs.2.1, fun m => ?_, fun d m' => ?_⟩
      · rw [ih.2.2.1 m, hs.2.2.2.1 m]
        by_cases hm : m = m0
        · subst hm
          rw [if_pos rfl]
          simp only [List.filter_cons, decide_eq_true_eq, if_pos rfl]
          cases alistGet? st.1 m <;> simp <;> omega
        · rw [if_neg hm]
          have hne : ¬ m0 = m := fun e => hm e.symm
          simp only [List.filter_cons, decide_eq_true_eq, if_neg hne]
      · rw [ih.2.2.2 d m', hs.2.2.2.2 d]
        have hstcount : ((Option.map (· ++ List.replicate (ds0.count d) m0)
            (alistGet? st.2 d)).getD []).count m' =
            ((alistGet? st.2 d).getD []).count m' +
            (if m0 = m' then ds0.count d else 0) := by
          cases hg : alistGet? st.2 d with
          | none =>
            simp only [Option.map_none, Option.getD_none, List.count_nil]
            by_cases hcd : ds0.count d = 0
            · simp [hcd]
            · have hdin : d ∈ ds0 := by
                rw [← List.count_pos_iff]
                omega
              have := hcov d (hs.2.2.1 d hdin)
              rw [hg] at this
              simp at this
          | some l =>
            have hred : ((Option.map (· ++ List.replicate (ds0.count d) m0)
                (some l)).getD []) = l ++ List.replicate (ds0.count d) m0 := rfl
            rw [hred, List.count_append, List.count_replicate]
            simp [beq_iff_eq]
        rw [hstcount]
        simp only [List.filter_cons, decide_eq_true_eq]
        by_cases hm : m0 = m'
        · rw [if_pos hm, if_pos hm]
          simp
          omega
        · rw [if_neg hm, if_neg hm]
          omega


theorem pendingDeps_eq_zero_iff (graph : List (String × List String)) (m : String)
    (result : List String) :
    pendingDeps graph m result = 0 ↔
      ∀ d ∈ (alistGet? graph m).getD [], d ∈ result := by
  unfold pendingDeps
  rw [List.countP_eq_zero]
  constructor
  · intro h d hd
    have := h d hd
    simpa using this
  · intro h d hd
    simpa using h d hd

theorem countP_notMem_append (l R : List String) (c : String) (hc : c ∉ R) :
    l.countP (fun d => decide (d ∉ R)) =
      l.countP (fun d => decide (d ∉ R ++ [c])) + l.count c := by
  induction l with
  | nil => simp
  | cons d rest ih =>
    by_cases hd : d = c
    · rw [hd, List.countP_cons, List.countP_cons, List.count_cons_self]
      have h1 : (decide (c ∉ R)) = true := decide_eq_true hc
      have h2 : (decide (c ∉ R ++ [c])) = false := decide_eq_false (by simp)
      rw [h1, h2, ih]
      norm_num
      omega
    · have hd2 : c ≠ d := fun e => hd e.symm
      rw [List.countP_cons, List.countP_cons, List.count_cons_of_ne hd2, ih]
      have h12 : (decide (d ∉ R ++ [c])) = (decide (d ∉ R)) := by
        by_cases hmem : d ∈ R
        · simp [hmem]
        · simp [hmem, hd]
      rw [h12]
      omega

theorem pendingDeps_append (graph : List (String × List String)) (m c : String)
    (result : List String) (hc : c ∉ result) :
    pendingDeps graph m result =
      pendingDeps graph m (result ++ [c]) +
        ((alistGet? graph m).getD []).count c := by
  unfold pendingDeps
  exact countP_notMem_append _ _ _ hc

theorem pendingDeps_zero_append (graph : List (String × List String)) (m : String)
    (result ext : List String) (h : pendingDeps graph m result = 0) :
    pendingDeps graph m (result ++ ext) = 0 := by
  rw [pendingDeps_eq_zero_iff] at h ⊢
  intro d hd
  exact List.mem_append.mpr (Or.inl (h d hd))

theorem processAdj_spec (graph : List (String × List String))
    (c : String) (result : List String)
    (hcres : c ∉ result)
    (hsub : ∀ m ∈ result, ∀ d ∈ (alistGet? graph m).getD [], d ∈ result)
    (hcdeps : ∀ d ∈ (alistGet? graph c).getD [], d ∈ result) :
    ∀ (todo : List String) (ind : List (String × Nat)) (q : List String),
      (∀ m ∈ todo, m ∈ graph.map Prod.fst ∧ c ∈ (alistGet? graph m).getD []) →
      (∀ m, alistGet? ind m = if m ∈ graph.map Prod.fst then
          some (pendingDeps graph m (result ++ [c]) + todo.count m) else none) →
      (∀ m ∈ q, pendingDeps graph m (result ++ [c]) = 0 ∧ todo.count m = 0) →
      q.Nodup →
      (∀ m ∈ q, m ∉ result ++ [c]) →
      (∀ m ∈ q, m ∈ graph.map Prod.fst) →
      ((∀ m, alistGet? (processAdj todo ind q).1 m =
         if m ∈ graph.map Prod.fst then
           some (pendingDeps graph m (result ++ [c])) else none) ∧
       (∀ m ∈ (processAdj todo ind q).2, pendingDeps graph m (result ++ [c]) = 0) ∧
       (processAdj todo ind q).2.Nodup ∧
       (∀ m ∈ (processAdj todo ind q).2, m ∉ result ++ [c]) ∧
       (∀ m ∈ (processAdj todo ind q).2, m ∈ graph.map Prod.fst)) := by
  intro todo
  induction todo with
  | nil =>
    intro ind q htodo hind hq0 hqnd hqres hqkeys
    refine ⟨fun m => ?_, fun m hm => (hq0 m hm).1, hqnd, hqres, hqkeys⟩
    show alistGet? ind m = _
    rw [hind m]
    by_cases hk : m ∈ graph.map Prod.fst
    · rw [if_pos hk, if_pos hk]
      simp
    · rw [if_neg hk, if_neg hk]
  | cons m0 rest ih =>
    intro ind q htodo hind hq0 hqnd hqres hqkeys
    have hm0 := htodo m0 (List.mem_cons_self _ _)
    have heval : (alistGet? (alistUpdate ind m0 (fun d => d - 1)) m0).getD 0
        = pendingDeps graph m0 (result ++ [c]) + rest.count m0 := by
      rw [alistGet?_update_self, hind m0, if_pos hm0.1]
      simp only [Option.map_some', Option.getD_some]
      rw [List.count_cons_self]
      omega
    have hindnew : ∀ m, alistGet? (alistUpdate ind m0 (fun d => d - 1)) m =
        if m ∈ graph.map Prod.fst then
          some (pendingDeps graph m (result ++ [c]) + rest.count m) else none := by
      intro m
      by_cases hm : m = m0
      · rw [hm, alistGet?_update_self, hind m0, if_pos hm0.1, if_pos hm0.1]
        simp only [Option.map_some', Option.some.injEq]
        rw [List.count_cons_self]
        omega
      · rw [alistGet?_update_ne _ _ _ _ hm, hind m]
        by_cases hk : m ∈ graph.map Prod.fst
        · rw [if_pos hk, if_pos hk, List.count_cons_of_ne hm]
        · rw [if_neg hk, if_neg hk]
    have htodo2 : ∀ m ∈ rest, m ∈ graph.map Prod.fst ∧
        c ∈ (alistGet? graph m).getD [] :=
      fun m hm => htodo m (List.mem_cons_of_mem _ hm)
    by_cases hz : pendingDeps graph m0 (result ++ [c]) + rest.count m0 = 0
    · have hq2eq : (if (alistGet? (alistUpdate ind m0 (fun d => d - 1)) m0).getD 0 = 0
          then q ++ [m0] else q) = q ++ [m0] := if_pos (by rw [heval]; exact hz)
      have hstep : processAdj (m0 :: rest) ind q =
          processAdj rest (alistUpdate ind m0 (fun d => d - 1)) (q ++ [m0]) := by
        simp only [processAdj]
        rw [hq2eq]
      have hm0q : m0 ∉ q := by
        intro hin
        have := (hq0 m0 hin).2
        rw [List.count_cons_self] at this
        omega
      have hq02 : ∀ m ∈ q ++ [m0],
          pendingDeps graph m (result ++ [c]) = 0 ∧ rest.count m = 0 := by
        intro m hm
        rcases List.mem_append.mp hm with h | h
        · refine ⟨(hq0 m h).1, ?_⟩
          have := (hq0 m h).2
          rw [List.count_cons] at this
          omega
        · simp only [List.mem_singleton] at h
          rw [h]
          exact ⟨by omega, by omega⟩
      have hqnd2 : (q ++ [m0]).Nodup := by
        refine List.Nodup.append hqnd (List.nodup_singleton m0) ?_
        intro x hx hmem
        simp only [List.mem_singleton] at hmem
        rw [hmem] at hx
        exact hm0q hx
      have hqres2 : ∀ m ∈ q ++ [m0], m ∉ result ++ [c] := by
        intro m hm
        rcases List.mem_append.mp hm with h | h
        · exact hqres m h
        · simp only [List.mem_singleton] at h
          rw [h]
          intro hin
          rcases List.mem_append.mp hin with hr | hcs
          · exact hcres (hsub m0 hr c hm0.2)
          · simp only [List.mem_singleton] at hcs
            rw [hcs] at hm0
            exact hcres (hcdeps c hm0.2)
      have hqkeys2 : ∀ m ∈ q ++ [m0], m ∈ graph.map Prod.fst := by
        intro m hm
        rcases List.mem_append.mp hm with h | h
        · exact hqkeys m h
        · simp only [List.mem_singleton] at h
          rw [h]
          exact hm0.1
      rw [hstep]
      exact ih _ _ htodo2 hindnew hq02 hqnd2 hqres2 hqkeys2
    · have hq2eq : (if (alistGet? (alistUpdate ind m0 (fun d => d - 1)) m0).getD 0 = 0
          then q ++ [m0] else q) = q := if_neg (by rw [heval]; exact hz)
      have hstep : processAdj (m0 :: rest) ind q =
          processAdj rest (alistUpdate ind m0 (fun d => d - 1)) q := by
        simp only [processAdj]
        rw [hq2eq]
      have hq02 : ∀ m ∈ q,
          pendingDeps graph m (result ++ [c]) = 0 ∧ rest.count m = 0 := by
        intro m hm
        refine ⟨(hq0 m hm).1, ?_⟩
        have := (hq0 m hm).2
        rw [List.count_cons] at this
        omega
      rw [hstep]
      exact ih _ _ htodo2 hindnew hq02 hqnd hqres hqkeys

theorem kahnLoop_spec (graph adjacency : List (String × List String))
    (hadj : ∀ d m', ((alistGet? adjacency d).getD []).count m' =
      ((alistGet? graph m').getD []).count d) :
    ∀ (fuel : Nat) (ind : List (String × Nat)) (queue result : List String),
      (∀ m, alistGet? ind m = if m ∈ graph.map Prod.fst then
          some (pendingDeps graph m result) else none) →
      (∀ m ∈ queue, pendingDeps graph m result = 0) →
      queue.Nodup →
      result.Nodup →
      (∀ m ∈ queue, m ∉ result) →
      (∀ m ∈ queue, m ∈ graph.map Prod.fst) →
      (∀ m ∈ result, m ∈ graph.map Prod.fst) →
      (∀ (i : Nat) (hi : i < result.length),
        ∀ d ∈ (alistGet? graph (result.get ⟨i, hi⟩)).getD [], d ∈ result.take i) →
      ((kahnLoop adjacency fuel ind queue result).Nodup ∧
       (∀ m ∈ kahnLoop adjacency fuel ind queue result, m ∈ graph.map Prod.fst) ∧
       (∀ (i : Nat) (hi : i < (kahnLoop adjacency fuel ind queue result).length),
         ∀ d ∈ (alistGet? graph
             ((kahnLoop adjacency fuel ind queue result).get ⟨i, hi⟩)).getD [],
           d ∈ (kahnLoop adjacency fuel ind queue result).take i)) := by
  intro fuel
  induction fuel with
  | zero =>
    intro ind queue result hind hq0 hqnd hrnd hdisj hqkeys hrkeys hB
    exact ⟨hrnd, hrkeys, hB⟩
  | succ fuel ih =>
    intro ind queue result hind hq0 hqnd hrnd hdisj hqkeys hrkeys hB
    match queue, hq0, hqnd, hdisj, hqkeys with
    | [], _, _, _, _ => exact ⟨hrnd, hrkeys, hB⟩
    | c :: rest, hq0, hqnd, hdisj, hqkeys =>
      have hcres : c ∉ result := hdisj c (List.mem_cons_self _ _)
      have hsub : ∀ m ∈ result, ∀ d ∈ (alistGet? graph m).getD [], d ∈ result := by
        intro m hm d hd
        obtain ⟨⟨n, hn⟩, hget⟩ := List.mem_iff_get.mp hm
        have h2 := hB n hn
        rw [hget] at h2
        exact List.take_subset _ _ (h2 d hd)
      have hcdeps : ∀ d ∈ (alistGet? graph c).getD [], d ∈ result :=
        (pendingDeps_eq_zero_iff _ _ _).mp (hq0 c (List.mem_cons_self _ _))
      have htodo : ∀ m ∈ (alistGet? adjacency c).getD [],
          m ∈ graph.map Prod.fst ∧ c ∈ (alistGet? graph m).getD [] := by
        intro m hm
        have hcnt : 0 < ((alistGet? adjacency c).getD []).count m :=
          List.count_pos_iff.mpr hm
        rw [hadj c m] at hcnt
        have hcmem : c ∈ (alistGet? graph m).getD [] := List.count_pos_iff.mp hcnt
        refine ⟨?_, hcmem⟩
        by_contra hkm
        rw [(alistGet?_eq_none_iff_not_mem graph m).mpr hkm] at hcmem
        simp at hcmem
      have hindmid : ∀ m, alistGet? ind m =
          if m ∈ graph.map Prod.fst then
            some (pendingDeps graph m (result ++ [c]) +
              ((alistGet? adjacency c).getD []).count m) else none := by
        intro m
        rw [hind m]
        by_cases hk : m ∈ graph.map Prod.fst
        · rw [if_pos hk, if_pos hk,
            pendingDeps_append graph m c result hcres, hadj c m]
        · rw [if_neg hk, if_neg hk]
      have hq0mid : ∀ m ∈ rest, pendingDeps graph m (result ++ [c]) = 0 ∧
          ((alistGet? adjacency c).getD []).count m = 0 := by
        intro m hm
        have hp := hq0 m (List.mem_cons_of_mem _ hm)
        refine ⟨pendingDeps_zero_append _ _ _ _ hp, ?_⟩
        rw [hadj c m, List.count_eq_zero]
        intro hcdm
        exact hcres ((pendingDeps_eq_zero_iff _ _ _).mp hp c hcdm)
      have hcnotrest : c ∉ rest := (List.nodup_cons.mp hqnd).1
      have hqresmid : ∀ m ∈ rest, m ∉ result ++ [c] := by
        intro m hm hmem
        rcases List.mem_append.mp hmem with h | h
        · exact hdisj m (List.mem_cons_of_mem _ hm) h
        · simp only [List.mem_singleton] at h
          rw [h] at hm
          exact hcnotrest hm
      have hps := processAdj_spec graph c result hcres hsub hcdeps
        ((alistGet? adjacency c).getD []) ind rest htodo hindmid hq0mid
        (List.nodup_cons.mp hqnd).2 hqresmid
        (fun m hm => hqkeys m (List.mem_cons_of_mem _ hm))
      have hrnd2 : (result ++ [c]).Nodup := by
        refine List.Nodup.append hrnd (List.nodup_singleton c) ?_
        intro x hx hmem
        simp only [List.mem_singleton] at hmem
        rw [hmem] at hx
        exact hcres hx
      have hrkeys2 : ∀ m ∈ result ++ [c], m ∈ graph.map Prod.fst := by
        intro m hm
        rcases List.mem_append.mp hm with h | h
        · exact hrkeys m h
        · simp only [List.mem_singleton] at h
          rw [h]
          exact hqkeys c (List.mem_cons_self _ _)
      have hB2 : ∀ (i : Nat) (hi : i < (result ++ [c]).length),
          ∀ d ∈ (alistGet? graph ((result ++ [c]).get ⟨i, hi⟩)).getD [],
            d ∈ (result ++ [c]).take i := by
        intro i hi d hd
        by_cases hilt : i < result.length
        · have hget : (result ++ [c]).get ⟨i, hi⟩ = result.get ⟨i, hilt⟩ :=
            List.get_append i hilt
          rw [hget] at hd
          rw [List.take_append_of_le_length (le_of_lt hilt)]
          exact hB i hilt d hd
        · have hieq : i = result.length := by
            have h2 : i < (result ++ [c]).length := hi
            rw [List.length_append, List.length_singleton] at h2
            omega
          subst hieq
          have hget : (result ++ [c]).get ⟨result.length, hi⟩ = c :=
            List.get_of_append rfl rfl
          rw [hget] at hd
          rw [List.take_left]
          exact hcdeps d hd
      exact ih (processAdj ((alistGet? adjacency c).getD []) ind rest).1
        (processAdj ((alistGet? adjacency c).getD []) ind rest).2
        (result ++ [c]) hps.1 hps.2.1 hps.2.2.1 hrnd2 hps.2.2.2.1
        hps.2.2.2.2 hrkeys2 hB2

theorem pendingDeps_nil (graph : List (String × List String)) (m : String) :
    pendingDeps graph m [] = ((alistGet? graph m).getD []).length := by
  unfold pendingDeps
  rw [List.countP_eq_length]
  intro a _
  simp

theorem buildGraphGo_keys (r : ImportResolver) :
    ∀ (l : List (String × McDocFile)) (g : List (String × List String)),
      r.buildGraphGo l = .ok g → g.map Prod.fst = l.map Prod.fst
  | [], g, h => by
    cases h
    rfl
  | (mp, file) :: rest, g, h => by
    simp only [ImportResolver.buildGraphGo] at h
    cases hi : r.resolveImportsOf mp file.imports with
    | error e => rw [hi] at h; cases h
    | ok deps =>
      rw [hi] at h
      cases hg : r.buildGraphGo rest with
      | error e => rw [hg] at h; cases h
      | ok g0 =>
        rw [hg] at h
        cases h
        simp only [List.map_cons]
        rw [buildGraphGo_keys r rest g0 hg]

theorem resolve_module_order (r r2 : ImportResolver) (m : String)
    (h : r.resolve_module m = .ok r2) :
    r2.resolution_order = r.resolution_order := by
  unfold ImportResolver.resolve_module at h
  by_cases hres : alistHas r.resolved m
  · rw [if_pos hres] at h
    cases h
    rfl
  · rw [if_neg hres] at h
    cases hm : alistGet? r.modules m with
    | none =>
      simp only [hm] at h
      cases h
    | some file =>
      simp only [hm] at h
      cases hi : r.resolveImportsOf m file.imports with
      | error e => simp only [hi] at h; cases h
      | ok deps =>
        simp only [hi] at h
        cases h
        rfl

theorem resolveLoop_order :
    ∀ (order : List String) (r : ImportResolver),
      ((ImportResolver.resolveLoop r order).2).resolution_order = r.resolution_order
  | [], r => rfl
  | m :: rest, r => by
    simp only [ImportResolver.resolveLoop]
    cases hm : r.resolve_module m with
    | error e => rfl
    | ok r2 =>
      rw [resolveLoop_order rest r2, resolve_module_order r r2 m hm]

theorem topological_sort_ok_spec (r : ImportResolver)
    (graph : List (String × List String)) (order : List String)
    (r1 : ImportResolver)
    (hnd : (graph.map Prod.fst).Nodup)
    (hkeys : graph.map Prod.fst = r.modules.map Prod.fst)
    (h : r.topological_sort graph = .ok (order, r1)) :
    order.Nodup ∧ (∀ m, m ∈ order ↔ m ∈ graph.map Prod.fst) ∧
    (∀ (i : Nat) (hi : i < order.length),
      ∀ d ∈ (alistGet? graph (order.get ⟨i, hi⟩)).getD [], d ∈ order.take i) ∧
    r1.resolution_order = order := by
  unfold ImportResolver.topological_sort at h
  cases hb : topoBuild r.modules graph
      (graph.map (fun p => (p.fst, (0 : Nat))),
       graph.map (fun p => (p.fst, ([] : List String)))) with
  | error e =>
    simp only [hb] at h
    cases h
  | ok st =>
    obtain ⟨in_degree, adjacency⟩ := st
    simp only [hb] at h
    split at h
    · cases h
    · rename_i hcond
      injection h with h2
      injection h2 with ho hr
      have hcov : ∀ k, alistHas r.modules k →
          (alistGet? (graph.map (fun p => (p.fst, ([] : List String)))) k).isSome := by
        intro k hk
        rw [alistGet?_map_const, hkeys]
        rw [if_pos ((alistGet?_isSome_iff_mem _ _).mp hk)]
        rfl
      have hspec := topoBuild_ok_spec r.modules graph
        (graph.map (fun p => (p.fst, (0 : Nat))),
         graph.map (fun p => (p.fst, ([] : List String))))
        (in_degree, adjacency) hb hcov
      have hd1 : ∀ m, alistGet? in_degree m =
          (alistGet? (graph.map (fun p => (p.fst, (0 : Nat)))) m).map
            (· + ((graph.filter (fun p => p.fst = m)).map
              (fun p => p.snd.length)).sum) := hspec.2.2.1
      have hd2 : ∀ d m', ((alistGet? adjacency d).getD []).count m' =
          ((alistGet? (graph.map (fun p => (p.fst, ([] : List String)))) d).getD
            []).count m' +
          ((graph.filter (fun p => p.fst = m')).map
            (fun p => p.snd.count d)).sum := hspec.2.2.2
      have hd0keys : in_degree.map Prod.fst = graph.map Prod.fst :=
        hspec.1.trans (by simp)
      have hind0 : ∀ m, alistGet? in_degree m =
          if m ∈ graph.map Prod.fst then some (pendingDeps graph m []) else none := by
        intro m
        rw [hd1 m, alistGet?_map_const]
        by_cases hk : m ∈ graph.map Prod.fst
        · rw [if_pos hk, if_pos hk]
          obtain ⟨deps, hdeps⟩ :=
            Option.isSome_iff_exists.mp ((alistGet?_isSome_iff_mem graph m).mpr hk)
          rw [filter_key_nodup hnd hdeps, pendingDeps_nil, hdeps]
          simp
        · rw [if_neg hk, if_neg hk]
          rfl
      have hadj : ∀ d m', ((alistGet? adjacency d).getD []).count m' =
          ((alistGet? graph m').getD []).count d := by
        intro d m'
        rw [hd2 d m', alistGet?_map_const]
        by_cases hk : m' ∈ graph.map Prod.fst
        · obtain ⟨deps, hdeps⟩ :=
            Option.isSome_iff_exists.mp ((alistGet?_isSome_iff_mem graph m').mpr hk)
          rw [filter_key_nodup hnd hdeps, hdeps]
          by_cases hdk : d ∈ graph.map Prod.fst <;> simp [hdk]
        · have hfil : graph.filter (fun p => p.fst = m') = [] := by
            apply List.filter_eq_nil_iff.mpr
            intro p hp hcontra
            simp only [decide_eq_true_eq] at hcontra
            exact hk (hcontra ▸ List.mem_map.mpr ⟨p, hp, rfl⟩)
          rw [hfil, (alistGet?_eq_none_iff_not_mem graph m').mpr hk]
          by_cases hdk : d ∈ graph.map Prod.fst <;> simp [hdk]
      have hq0 : ∀ m ∈ (in_degree.filter (fun p => p.snd = 0)).map Prod.fst,
          pendingDeps graph m [] = 0 := by
        intro m hm
        obtain ⟨p, hp, hpm⟩ := List.mem_map.mp hm
        have hpfil := List.mem_filter.mp hp
        obtain ⟨k, v⟩ := p
        simp only [decide_eq_true_eq] at hpfil
        have hnd2 : (in_degree.map Prod.fst).Nodup := hd0keys ▸ hnd
        have hget : alistGet? in_degree k = some v :=
          alistGet?_eq_some_of_mem_nodup hnd2 hpfil.1
        rw [hind0 k] at hget
        have hkk : k ∈ graph.map Prod.fst := by
          by_contra hno
          rw [if_neg hno] at hget
          cases hget
        rw [if_pos hkk] at hget
        injection hget with hget
        rw [← hpm]
        exact hget.trans hpfil.2
      have hqnd : ((in_degree.filter (fun p => p.snd = 0)).map Prod.fst).Nodup := by
        have hsl : List.Sublist
            ((in_degree.filter (fun p => p.snd = 0)).map Prod.fst)
            (in_degree.map Prod.fst) := (List.filter_sublist _).map Prod.fst
        exact List.Nodup.sublist hsl (hd0keys ▸ hnd)
      have hqkeys : ∀ m ∈ (in_degree.filter (fun p => p.snd = 0)).map Prod.fst,
          m ∈ graph.map Prod.fst := by
        intro m hm
        obtain ⟨p, hp, hpm⟩ := List.mem_map.mp hm
        have hp1 := (List.mem_filter.mp hp).1
        rw [← hd0keys]
        exact hpm ▸ List.mem_map.mpr ⟨p, hp1, rfl⟩
      have hks := kahnLoop_spec graph adjacency hadj (graph.length + 1) in_degree
        ((in_degree.filter (fun p => p.snd = 0)).map Prod.fst) []
        hind0 hq0 hqnd List.nodup_nil
        (fun m _ => List.not_mem_nil m)
        hqkeys
        (fun m hm => absurd hm (List.not_mem_nil m))
        (fun i hi => absurd hi (by simp))
      have hoo : kahnLoop adjacency (graph.length + 1) in_degree
          ((in_degree.filter (fun p => p.snd = 0)).map Prod.fst) [] = order := ho
      rw [hoo] at hks
      have hlen : order.length = graph.length := by
        rw [← hoo]
        exact not_not.mp hcond
      have hfin : order.toFinset = (graph.map Prod.fst).toFinset := by
        apply Finset.eq_of_subset_of_card_le
        · intro x hx
          rw [List.mem_toFinset] at hx ⊢
          exact hks.2.1 x hx
        · rw [List.toFinset_card_of_nodup hnd, List.toFinset_card_of_nodup hks.1,
            hlen, List.length_map]
      have hmemiff : ∀ m, m ∈ order ↔ m ∈ graph.map Prod.fst := by
        intro m
        constructor
        · exact hks.2.1 m
        · intro hm
          rw [← List.mem_toFinset, hfin]
          exact List.mem_toFinset.mpr hm
      refine ⟨hks.1, hmemiff, hks.2.2, ?_⟩
      rw [← hr]
      exact hoo

/-- C7: if `resolve_all` succeeds (on a resolver whose module paths are
distinct, as `HashMap` keys are in the source), then the recorded
`resolution_order` is a topological sort of the dependency graph: it lists
every added module exactly once, contains nothing else, and every module
appears strictly after all of the modules it imports (its entry in the
dependency graph built by `build_dependency_graph`). -/
theorem resolve_all_topological_order
    (r : ImportResolver) (graph : List (String × List String)) (r2 : ImportResolver)
    (hnd : (r.modules.map Prod.fst).Nodup)
    (hgraph : r.build_dependency_graph = .ok graph)
    (hres : r.resolve_all = (.ok (), r2)) :
    (∀ m, m ∈ r.modules.map Prod.fst → r2.resolution_order.count m = 1) ∧
    (∀ m, m ∈ r2.resolution_order → m ∈ r.modules.map Prod.fst) ∧
    (∀ (i : Nat) (hi : i < r2.resolution_order.length),
      ∀ d ∈ (alistGet? graph (r2.resolution_order.get ⟨i, hi⟩)).getD [],
        d ∈ r2.resolution_order.take i) := by
  have hgraph2 : r.buildGraphGo r.modules = .ok graph := hgraph
  have hgk : graph.map Prod.fst = r.modules.map Prod.fst :=
    buildGraphGo_keys r r.modules graph hgraph2
  have hndg : (graph.map Prod.fst).Nodup := by
    rw [hgk]
    exact hnd
  unfold ImportResolver.resolve_all at hres
  simp only [hgraph] at hres
  cases hts : r.topological_sort graph with
  | error e =>
    simp only [hts] at hres
    simp only [Prod.mk.injEq] at hres
    exact absurd hres.1 (by simp)
  | ok p =>
    obtain ⟨order, r1⟩ := p
    simp only [hts] at hres
    have hspec := topological_sort_ok_spec r graph order r1 hndg hgk hts
    have h2 : (ImportResolver.resolveLoop r1 order).2 = r2 := by rw [hres]
    have horder : r2.resolution_order = order := by
      rw [← h2, resolveLoop_order order r1, hspec.2.2.2]
    rw [horder]
    refine ⟨?_, ?_, hspec.2.2.1⟩
    · intro m hm
      have hmem : m ∈ order := (hspec.2.1 m).mpr (by rw [hgk]; exact hm)
      have hle := List.nodup_iff_count_le_one.mp hspec.1 m
      have hpos : 0 < order.count m := List.count_pos_iff.mpr hmem
      omega
    · intro m hm
      rw [← hgk]
      exact (hspec.2.1 m).mp hm

/-- Witness for C7 on the two-module resolver `resolverAB` (`b` imports
`a`): its module keys are distinct, and the recorded order counts each
module exactly once. -/
theorem resolve_all_topological_order_witness :
    (resolverAB.modules.map Prod.fst).Nodup ∧
    (∀ m, m ∈ resolverAB.modules.map Prod.fst →
      ((resolverAB.resolve_all).snd.resolution_order).count m = 1) :=
  ⟨by decide,
   (resolve_all_topological_order resolverAB [("a", []), ("b", ["a"])]
      (resolverAB.resolve_all).snd (by decide) rfl rfl).1⟩
